import Mathlib

/-!
Verification of the pyqode.core code folding engine
(`pyqode/core/api/folding.py`).

The document is embedded as a list of line records.  Per-line fold state
(level, trigger flag, collapsed flag, visibility) is carried directly on the
record; in the source it is bit-packed into the Qt block user state through
`TextBlockHelper` (`pyqode.core.api.utils`, not part of the sources under
verification), whose getters and setters are modelled from the spec's data
model: levels are natural numbers defaulting to 0, the flags default to
false, reading an invalid block yields the defaults and writing to an
invalid block does nothing (the documented behaviour of Qt's `QTextBlock`
user state on invalid blocks).
-/

/-- One document line: its text plus the fold state attached to the block. -/
structure Line where
  text : List Char
  foldLvl : Nat
  trigger : Bool
  triggerState : Bool
  visible : Bool
deriving DecidableEq, Repr

abbrev Doc := List Line

/-- Replace the record at index `i` (identity when out of range, matching a
write to an invalid block being a no-op). -/
def modifyAt (f : Line → Line) : Doc → Nat → Doc
  | [], _ => []
  | l :: ls, 0 => f l :: ls
  | l :: ls, n + 1 => l :: modifyAt f ls n

/-- Python `text.strip() == ''`: the line consists of whitespace only. -/
def isBlankText (t : List Char) : Bool := t.all Char.isWhitespace

/-- Modelled from the spec: text of the block at `i` (`block.text()`), the
empty string for an invalid block. -/
def get_text (doc : Doc) (i : Nat) : List Char :=
  ((doc.get? i).map Line.text).getD []

/-- Modelled from the spec: `TextBlockHelper.get_fold_lvl`, default 0. -/
def get_fold_lvl (doc : Doc) (i : Nat) : Nat :=
  ((doc.get? i).map Line.foldLvl).getD 0

/-- Modelled from the spec: `TextBlockHelper.set_fold_lvl`. -/
def set_fold_lvl (doc : Doc) (i : Nat) (v : Nat) : Doc :=
  modifyAt (fun l => { l with foldLvl := v }) doc i

/-- Modelled from the spec: `TextBlockHelper.is_fold_trigger`, default false. -/
def is_fold_trigger (doc : Doc) (i : Nat) : Bool :=
  ((doc.get? i).map Line.trigger).getD false

/-- Modelled from the spec: `TextBlockHelper.set_fold_trigger`. -/
def set_fold_trigger (doc : Doc) (i : Nat) (b : Bool) : Doc :=
  modifyAt (fun l => { l with trigger := b }) doc i

/-- Modelled from the spec: `TextBlockHelper.get_fold_trigger_state`
(true when the trigger's scope is collapsed), default false. -/
def get_fold_trigger_state (doc : Doc) (i : Nat) : Bool :=
  ((doc.get? i).map Line.triggerState).getD false

/-- Modelled from the spec: `TextBlockHelper.set_fold_trigger_state`. -/
def set_fold_trigger_state (doc : Doc) (i : Nat) (b : Bool) : Doc :=
  modifyAt (fun l => { l with triggerState := b }) doc i

/-- Qt `block.isVisible()`, default false on an invalid block. -/
def is_visible (doc : Doc) (i : Nat) : Bool :=
  ((doc.get? i).map Line.visible).getD false

/-- Qt `block.setVisible(...)`, a no-op on an invalid block. -/
def set_visible (doc : Doc) (i : Nat) (b : Bool) : Doc :=
  modifyAt (fun l => { l with visible := b }) doc i

/-- `IndentFoldDetector.detect_fold_level`:
`(len(text) - len(text.lstrip())) // self.editor.tab_length`, i.e. the number
of leading whitespace characters floor-divided by the tab length.  The
previous (non-blank) block is passed by the processor but ignored by this
reference detector. -/
def detect_fold_level (tab : Nat) (prev : Option (List Char)) (t : List Char) : Nat :=
  (t.takeWhile Char.isWhitespace).length / tab

/-- The backward walk of `process_block` (folding.py lines 81 to 84): starting
at the block before the current one, assign `fl` as fold level to every
contiguous preceding blank line; return the updated document together with the
index of the first non-blank block reached (none when the walk ran off the
start of the document, i.e. the stop block is invalid).  The second argument
of the recursion is the number of lines preceding the current block. -/
def walkBack (fl : Nat) : Doc → Nat → Doc × Option Nat
  | doc, 0 => (doc, none)
  | doc, k + 1 =>
    if isBlankText (get_text doc k) then walkBack fl (set_fold_lvl doc k fl) k
    else (doc, some k)

/-- Folding.py lines 79 to 86: when the new level is above the previous one,
run the backward walk over the preceding blank lines and mark the block it
stopped on as a fold trigger (a no-op when the walk ran off the start of the
document, writing to an invalid block). -/
def applyWalk (fl0 prevLvl : Nat) (doc : Doc) (i : Nat) : Doc :=
  if prevLvl < fl0 then
    match walkBack fl0 doc i with
    | (d, some j) => set_fold_trigger d j true
    | (d, none) => d
  else doc

/-- The contiguity clamp of `process_block` (folding.py lines 88 to 96): a
raw level more than one above the previous level is forced down to
`prev + 1`; anything else, including arbitrary decreases, passes through. -/
def clampLvl (pl c : Nat) : Nat := if pl < c ∧ pl + 1 < c then pl + 1 else c

/-- Folding.py lines 104 to 117, the "user pressed enter at the beginning of
a fold trigger line" fix-up: when the block directly above `i` is blank and
still carries a trigger flag, copy its trigger state (the collapsed flag)
onto block `i` and clear both flags on the blank block.  The trigger flag
itself is not written to block `i` here. -/
def applyEnterFix (doc : Doc) (i : Nat) : Doc :=
  if 1 ≤ i ∧ isBlankText (get_text doc (i - 1)) = true ∧
      is_fold_trigger doc (i - 1) = true then
    let d4 := set_fold_trigger_state doc i (get_fold_trigger_state doc (i - 1))
    let d5 := set_fold_trigger d4 (i - 1) false
    set_fold_trigger_state d5 (i - 1) false
  else doc

/-- `FoldDetector.process_block` (folding.py lines 57 to 117) for the block at
index `i`.  `prevNB` is the `previous_block` argument: per the documented
contract of `detect_fold_level` the caller passes the first previous
non-blank block, or none on the first line.  `limit` is the fold level limit
(`self.limit`, default `sys.maxsize`); `detect` is the pluggable
`detect_fold_level` strategy, receiving the texts of the two blocks. -/
def process_block (limit : Nat) (detect : Option (List Char) → List Char → Nat)
    (doc : Doc) (i : Nat) (prevNB : Option Nat) : Doc :=
  let prevLvl := match prevNB with
    | none => 0
    | some p => get_fold_lvl doc p
  let text := get_text doc i
  let fl0 :=
    if isBlankText text then prevLvl
    else
      let d := detect (prevNB.map (get_text doc)) text
      if limit < d then limit else d
  let doc1 := applyWalk fl0 prevLvl doc i
  let fl := clampLvl prevLvl fl0
  let doc2 :=
    if isBlankText text then doc1
    else
      match prevNB with
      | some p => set_fold_trigger doc1 p (decide (prevLvl < fl))
      | none => doc1
  let doc3 := set_fold_lvl doc2 i fl
  applyEnterFix doc3 i

/-- Modelled from the spec: index of the nearest preceding non-blank line,
as computed by the syntax highlighter (not part of the sources under
verification) when it passes `previous_block` to `process_block`. -/
def prevNonBlank (ts : List (List Char)) : Nat → Option Nat
  | 0 => none
  | i + 1 => if isBlankText (ts.getD i []) then prevNonBlank ts i else some i

/-- Index of the first non-blank line at or after `base` in `rest`. -/
def nextNonBlankAux : List (List Char) → Nat → Option Nat
  | [], _ => none
  | t :: rest, base => if isBlankText t then nextNonBlankAux rest (base + 1) else some base

/-- Index of the nearest following non-blank line after `i`. -/
def nextNonBlank (ts : List (List Char)) (i : Nat) : Option Nat :=
  nextNonBlankAux (ts.drop (i + 1)) (i + 1)

/-- Modelled from the spec: the incremental processor is invoked once per
line in document order during a (re)highlight pass; this runs
`process_block` on lines `i, i+1, ...` (`fuel` many of them). -/
def passFrom (limit : Nat) (detect : Option (List Char) → List Char → Nat)
    (ts : List (List Char)) : Doc → Nat → Nat → Doc
  | doc, _, 0 => doc
  | doc, i, fuel + 1 =>
    passFrom limit detect ts
      (process_block limit detect doc i (prevNonBlank ts i)) (i + 1) fuel

/-- A freshly created line record: level 0, no flags, visible. -/
def mkLine (t : List Char) : Line := ⟨t, 0, false, false, true⟩

/-- A full processing pass over a fresh document built from the given line
texts: every line is processed once, in document order. -/
def processAll (limit : Nat) (detect : Option (List Char) → List Char → Nat)
    (ts : List (List Char)) : Doc :=
  passFrom limit detect ts (ts.map mkLine) 0 ts.length

/-- Python `sys.maxsize` on a 64-bit platform, the default fold level limit. -/
def defaultLimit : Nat := 9223372036854775807

/-- The limit-clipped raw detector output for line `m` of a fresh pass:
what `process_block` computes at line 76 to 77 before the contiguity clamp. -/
def detClip (limit : Nat) (detect : Option (List Char) → List Char → Nat)
    (ts : List (List Char)) (m : Nat) : Nat :=
  let d := detect ((prevNonBlank ts m).map (fun p => ts.getD p [])) (ts.getD m [])
  if limit < d then limit else d

/-- Level a blank line ends with: the inherited level `pl` of the nearest
preceding non-blank line, unless the following non-blank line's clipped raw
level exceeds `pl`, in which case the backward walk raised the blank line to
that raw level. -/
def raiseLvl (pl c : Nat) : Nat := if pl < c then c else pl

namespace FoldScope

/-- `FoldScope.__init__` (folding.py lines 183 to 194): a fold scope is built
from a block that must be a fold trigger; a non-trigger block raises
`ValueError('Not a fold trigger')` (the spec's `InvalidScopeError`).  The
constructor stores the block and touches no line state; the pure result is
the trigger index. -/
def make (doc : Doc) (i : Nat) : Except String Nat :=
  if is_fold_trigger doc i then Except.ok i else Except.error "Not a fold trigger"

/-- `FoldScope.trigger_level`: fold level of the trigger block. -/
def trigger_level (doc : Doc) (i : Nat) : Nat := get_fold_lvl doc i

/-- `FoldScope.scope_level`: fold level of the block just after the trigger
(0 when the trigger is the last line, the level of an invalid block). -/
def scope_level (doc : Doc) (i : Nat) : Nat := get_fold_lvl doc (i + 1)

/-- `FoldScope.collapsed`: the trigger's collapsed state. -/
def collapsed (doc : Doc) (i : Nat) : Bool := get_fold_trigger_state doc i

/-- The forward scan of `get_range` (folding.py lines 212 to 215): walk the
blocks from `b` on while the fold level stays strictly above `refLvl`,
remembering the last such block in `last`.  `rest` is the list of blocks
from index `b` on, so the scan stops at the end of the document exactly when
the block becomes invalid. -/
def scanEnd (refLvl : Int) : List Line → Nat → Nat → Nat
  | [], _, last => last
  | l :: ls, b, last =>
    if refLvl < (l.foldLvl : Int) then scanEnd refLvl ls (b + 1) b else last

/-- The trailing trim of `get_range` (folding.py lines 217 to 221): walk
backwards from `last_line` while the block number is non-zero and the block
is blank. -/
def trimBlanks (doc : Doc) : Nat → Nat
  | 0 => 0
  | j + 1 => if isBlankText (get_text doc (j + 1)) then trimBlanks doc j else j + 1

/-- `FoldScope.get_range` (folding.py lines 196 to 222).  Block numbers are
integers because Qt's `blockNumber()` is `-1` on an invalid block: when the
trigger is the last line of the document, `trigger.next()` is invalid and
`last_line` starts as `-1` (an invalid block also reads as level 0 and empty
text).  With `ignore_blank_lines`, `-1` is truthy in Python, so the source
then enters the trim loop on the invalid block returned by
`findBlockByNumber(-1)`: the loop condition holds there (`blockNumber()` is
`-1`, the text is empty, hence blank), and `previous()` on the invalid
end-sentinel block wraps to the document's **last** block (Qt's
`QFragmentMapData::previous(0)` returns the maximum of the tree — the
`doc.end().previous()` idiom), so `last_line` becomes the last line number
and the trim continues upward from the end of the document as usual. -/
def get_range (doc : Doc) (i : Nat) (ignore_blank_lines : Bool) : Int × Int :=
  if i + 1 < doc.length then
    let tl := get_fold_lvl doc i
    let sl := get_fold_lvl doc (i + 1)
    let refLvl : Int := if tl = sl then (tl : Int) - 1 else (tl : Int)
    let last := scanEnd refLvl (doc.drop (i + 1)) (i + 1) (i + 1)
    if ignore_blank_lines && (last != 0) then ((i : Int), (trimBlanks doc last : Int))
    else ((i : Int), (last : Int))
  else
    let first : Int := if i < doc.length then (i : Int) else -1
    if ignore_blank_lines then (first, (trimBlanks doc (doc.length - 1) : Int))
    else (first, -1)

/-- The hide loop of `FoldScope.fold` (folding.py lines 230 to 233): from
block `b` on, while the block number is at most `e` and the block is valid,
make the block invisible.  The fuel argument only drives the recursion; a
fuel of `doc.length` is enough for every run of the source loop. -/
def hideLoop (e : Int) : Nat → Doc → Nat → Doc
  | 0, doc, _ => doc
  | fuel + 1, doc, b =>
    if b < doc.length ∧ (b : Int) ≤ e then hideLoop e fuel (set_visible doc b false) (b + 1)
    else doc

/-- `FoldScope.fold` (folding.py lines 224 to 233): compute the range, set
the trigger collapsed, hide every block of the body.  On a trigger sitting
on the last line, the range end lies at or before the trigger, so the hide
loop (starting on the invalid block after the trigger) runs zero times and
only the collapsed flag changes. -/
def fold (doc : Doc) (i : Nat) : Doc :=
  hideLoop (get_range doc i true).2 doc.length
    (set_fold_trigger_state doc i true) (i + 1)

/-- The block collection loop shared by `FoldScope.blocks` and
`FoldScope.child_regions` (folding.py lines 259 to 287): walk the blocks
from `b` while the block number is at most `e` and the block is valid,
keeping the indices whose fold level equals `scopeLvl` and whose trigger
flag equals `wantTrigger`. -/
def collectBlocks (scopeLvl : Nat) (e : Int) (wantTrigger : Bool) :
    List Line → Nat → List Nat
  | [], _ => []
  | l :: ls, b =>
    if (b : Int) ≤ e then
      (if l.foldLvl = scopeLvl ∧ l.trigger = wantTrigger then [b] else []) ++
        collectBlocks scopeLvl e wantTrigger ls (b + 1)
    else []

/-- `FoldScope.blocks`: the direct blocks of the scope (level equal to the
scope level, not triggers), within the range computed with the given
`ignore_blank_lines` mode. -/
def blocksList (doc : Doc) (i : Nat) (ignore_blank_lines : Bool) : List Nat :=
  collectBlocks (scope_level doc i) (get_range doc i ignore_blank_lines).2 false
    (doc.drop (i + 1)) (i + 1)

/-- `FoldScope.child_regions`: the direct child triggers of the scope. -/
def childList (doc : Doc) (i : Nat) : List Nat :=
  collectBlocks (scope_level doc i) (get_range doc i true).2 true
    (doc.drop (i + 1)) (i + 1)

/-- The boundary reveal loop of `FoldScope.unfold` (folding.py lines 254 to
257): from block `b` down, while the block number is above `bstart`, make
the block visible. -/
def revealLoop (bstart : Int) : Doc → Nat → Doc
  | doc, 0 => if bstart < 0 then set_visible doc 0 true else doc
  | doc, b + 1 =>
    if bstart < ((b : Int) + 1) then revealLoop bstart (set_visible doc (b + 1) true) b
    else doc

/-- The collapsed-child branch of `FoldScope.unfold` (folding.py lines 247 to
257): leave the child closed but reveal its trigger line and the blank tail
of its range.  `bstart` is the end of the child's trimmed range, `bend` the
end of its untrimmed range; when `bend` is `-1` (child trigger on the last
line, untrimmed mode) the loop body never runs. -/
def kidReveal (doc : Doc) (c : Nat) : Doc :=
  let bstart := (get_range doc c true).2
  let bend := (get_range doc c false).2
  let d := set_visible doc c true
  if 0 ≤ bend then revealLoop bstart d bend.toNat else d

/-- The child loop of `FoldScope.unfold` (folding.py lines 244 to 257):
process the direct child scopes in order, recursively unfolding the expanded
ones (`step`) and only revealing the boundary of the collapsed ones. -/
def kidsLoop (step : Doc → Nat → Doc) : Doc → List Nat → Doc
  | doc, [] => doc
  | doc, c :: cs =>
    if get_fold_trigger_state doc c then kidsLoop step (kidReveal doc c) cs
    else kidsLoop step (step doc c) cs

/-- `FoldScope.unfold` (folding.py lines 235 to 257) with explicit recursion
fuel for the child recursion: make the trigger visible and expanded, make
every direct block (untrimmed range) visible, then walk the direct child
regions.  Along any chain of child regions trigger indices strictly increase
and stay below the document length, so a fuel of `doc.length + 1` is never
exhausted by the source's recursion; the fuel-0 base case is unreachable on
those runs. -/
def unfoldFuel : Nat → Doc → Nat → Doc
  | 0, doc, _ => doc
  | fuel + 1, doc, i =>
    let d0 := set_visible doc i true
    let d1 := set_fold_trigger_state d0 i false
    let d2 := (blocksList d1 i false).foldl (fun acc b => set_visible acc b true) d1
    kidsLoop (fun d c => unfoldFuel fuel d c) d2 (childList d2 i)

/-- `FoldScope.unfold` at its standard fuel. -/
def unfold (doc : Doc) (i : Nat) : Doc := unfoldFuel (doc.length + 1) doc i

end FoldScope

/-- The record `print_tree` emits for one block (folding.py lines 18 to 30):
`l<N>:<level><trigger-char><visibility-char>` for a trigger block, where the
trigger character is `+` when the trigger state (collapsed flag) is set and
`-` otherwise; `l<N>:<level><visibility-char>` for a non-trigger block, and
only when `print_blocks` is set; `N` is the 1-based block number. -/
def formatLine (print_blocks : Bool) (i : Nat) (l : Line) : Option String :=
  if l.trigger then
    some ("l" ++ toString (i + 1) ++ ":" ++ toString l.foldLvl ++
      (if l.triggerState then "+" else "-") ++ (if l.visible then "V" else "I"))
  else if print_blocks then
    some ("l" ++ toString (i + 1) ++ ":" ++ toString l.foldLvl ++
      (if l.visible then "V" else "I"))
  else none

/-- The block loop of `print_tree`, from block index `i` on. -/
def print_tree_go (print_blocks : Bool) : List Line → Nat → List String
  | [], _ => []
  | l :: ls, i =>
    match formatLine print_blocks i l with
    | some s => s :: print_tree_go print_blocks ls (i + 1)
    | none => print_tree_go print_blocks ls (i + 1)

/-- `print_tree` (folding.py lines 11 to 31): the sequence of records printed
for the document, in block order.  It reads the line store and writes
nothing back. -/
def print_tree (doc : Doc) (print_blocks : Bool) : List String :=
  print_tree_go print_blocks doc 0

/-- The `last_line` value of `get_range`'s forward scan when the trigger has
a following line: the reference level is the trigger level, dropped by one
when the scope level coincides with it, and the scan starts just after the
trigger. -/
def rangeScan (d : Doc) (i : Nat) : Nat :=
  FoldScope.scanEnd
    (if get_fold_lvl d i = get_fold_lvl d (i + 1) then (get_fold_lvl d i : Int) - 1
     else (get_fold_lvl d i : Int))
    (d.drop (i + 1)) (i + 1) (i + 1)

/-- The end line `fold` hides up to: the trimmed range end `get_range`
returns in its default mode for a trigger that has a following line. -/
def foldEnd (d : Doc) (i : Nat) : Int :=
  (FoldScope.trimBlanks d (rangeScan d i) : Int)

/-- The record the spec's format describes for line `i` (0-based; the printed
number is 1-based): `l<N>:<level><trigger-char><visibility-char>`, where the
trigger character is present only on triggers. -/
def recordFor (i : Nat) (l : Line) : String :=
  "l" ++ toString (i + 1) ++ ":" ++ toString l.foldLvl ++
    (if l.trigger then (if l.triggerState then "+" else "-") else "") ++
    (if l.visible then "V" else "I")

/-- The texts of the lines of a document. -/
def docTexts (d : Doc) : List (List Char) := d.map Line.text

/-- One driver invocation on a live document: `process_block` with the
`previous_block` argument the highlighter would pass, the nearest preceding
non-blank block. -/
def process_line (limit : Nat) (detect : Option (List Char) → List Char → Nat)
    (d : Doc) (i : Nat) : Doc :=
  process_block limit detect d i (prevNonBlank (docTexts d) i)

/-- Fold level of the nearest preceding non-blank line, 0 when there is
none: the `prev_fold_level` a fresh pass reads when it processes any line of
the blank gap below that line. -/
def plOf (d : Doc) (ts : List (List Char)) (j : Nat) : Nat :=
  match prevNonBlank ts j with
  | some p => get_fold_lvl d p
  | none => 0

/-- Shorthand: line `j` of the text list is blank (out-of-range lines read as
the empty, hence blank, text). -/
abbrev blankTs (ts : List (List Char)) (j : Nat) : Prop :=
  isBlankText (ts.getD j []) = true

/-- Invariant of a fresh full pass after the lines `0, ..., k-1` have been
processed: texts and length never change; unprocessed lines are still fresh;
nothing in a fresh pass touches visibility or collapsed states; a processed
non-blank line carries the contiguity-clamped clipped detector level over
the level of its nearest preceding non-blank line; a processed blank line
carries the inherited level, raised to the following non-blank line's
clipped raw level once that line has been processed and its level exceeds
the inherited one; and a line is flagged as a trigger exactly when it is
non-blank and its next non-blank line has been processed and ended up with
a strictly greater level. -/
structure PassInv (limit : Nat) (detect : Option (List Char) → List Char → Nat)
    (ts : List (List Char)) (k : Nat) (d : Doc) : Prop where
  len : d.length = ts.length
  tx : ∀ j, get_text d j = ts.getD j []
  frame : ∀ j, k ≤ j → d.get? j = (ts.get? j).map mkLine
  vis : ∀ j, j < ts.length → is_visible d j = true
  state : ∀ j, get_fold_trigger_state d j = false
  nblvl : ∀ j, j < k → ¬ blankTs ts j →
    get_fold_lvl d j = clampLvl (plOf d ts j) (detClip limit detect ts j)
  blanks : ∀ j, j < k → blankTs ts j →
    get_fold_lvl d j = (match nextNonBlank ts j with
      | some m => if m < k then raiseLvl (plOf d ts j) (detClip limit detect ts m)
                  else plOf d ts j
      | none => plOf d ts j)
  trig : ∀ j, is_fold_trigger d j = true ↔
    (¬ blankTs ts j ∧ ∃ m, nextNonBlank ts j = some m ∧ m < k ∧
      get_fold_lvl d j < get_fold_lvl d m)

/-- The indentation detector at the default tab length 4. -/
def indentDetect : Option (List Char) → List Char → Nat := detect_fold_level 4

/-- Scenario 1 of the spec: `["def f():", "    x = 1", "    y = 2", "z = 3"]`. -/
def scen1Ts : List (List Char) :=
  ["def f():".data, "    x = 1".data, "    y = 2".data, "z = 3".data]

/-- Scenario 1 after a full pass of the incremental processor. -/
def scen1Doc : Doc := processAll defaultLimit indentDetect scen1Ts

/-- Scenario 3: scenario 1 with the scope of line 0 folded. -/
def scen1Folded : Doc := FoldScope.fold scen1Doc 0

/-- A document whose fold level drops by two between adjacent non-blank
lines: `["def a():", "    def b():", "        x = 1", "y = 2"]`. -/
def exC1Ts : List (List Char) :=
  ["def a():".data, "    def b():".data, "        x = 1".data, "y = 2".data]

/-- A document with a blank line directly below a fold trigger:
`["def f():", "", "    x = 1"]`. -/
def exC3Ts : List (List Char) := ["def f():".data, "".data, "    x = 1".data]

/-- A hand-crafted state: a collapsed top-level scope (line 0) whose body
(lines 1 and 2) is hidden; line 1 is itself an expanded trigger with no
collapsed children. -/
def exC5Doc : Doc :=
  [⟨"def a():".data, 0, true, true, true⟩,
   ⟨"    def b():".data, 1, true, false, false⟩,
   ⟨"        x = 1".data, 2, false, false, false⟩]

/-- A hand-crafted state with a fold trigger on the last (and only) line. -/
def exC6Doc : Doc := [⟨"while True:".data, 0, true, false, true⟩]

/-- A hand-crafted state: a fully visible scope with no trigger flag and no
collapsed state anywhere except the scope trigger itself, whose body
contains a line nested one level deeper than the scope level with no child
trigger above it. -/
def exC5bDoc : Doc :=
  [⟨"def a():".data, 0, true, false, true⟩,
   ⟨"    b = 1".data, 1, false, false, true⟩,
   ⟨"        c".data, 2, false, false, true⟩]

/-- A hand-crafted state with a fold trigger on the last (and only) line. -/
def exC7Doc : Doc := [⟨"a = 1".data, 0, true, false, true⟩]

/-- A hand-crafted state with a trigger flag sitting on a blank line (the
transient mid-pass situation) followed by another blank line. -/
def exC7bDoc : Doc :=
  [⟨"x = 1".data, 0, false, false, true⟩,
   ⟨"  ".data, 1, true, false, true⟩,
   ⟨"   ".data, 1, false, false, true⟩]

/-- A hand-crafted state: a blank line still carrying a trigger flag and a
collapsed state, directly above a non-blank line (the "enter pressed at the
beginning of a fold trigger line" situation). -/
def exC8Doc : Doc :=
  [⟨" ".data, 0, true, true, true⟩, ⟨"x = 1".data, 0, false, false, true⟩]

/-- A hand-crafted state: a collapsed trigger line followed by a plain line. -/
def exC10Doc : Doc :=
  [⟨"a = 1".data, 0, true, true, true⟩, ⟨"b = 2".data, 0, false, false, true⟩]

section PointwiseLemmas

theorem modifyAt_get? (f : Line → Line) (d : Doc) (n m : Nat) :
    (modifyAt f d n).get? m = if n = m then (d.get? m).map f else d.get? m := by
  induction d generalizing n m with
  | nil => simp [modifyAt]
  | cons l ls ih =>
    cases n with
    | zero => cases m <;> simp [modifyAt]
    | succ n =>
      cases m with
      | zero => simp [modifyAt]
      | succ m => simpa [modifyAt] using ih n m

@[simp] theorem modifyAt_length (f : Line → Line) (d : Doc) (n : Nat) :
    (modifyAt f d n).length = d.length := by
  induction d generalizing n with
  | nil => rfl
  | cons l ls ih => cases n <;> simp [modifyAt, ih]

@[simp] theorem length_set_fold_lvl (d : Doc) (i v : Nat) :
    (set_fold_lvl d i v).length = d.length := modifyAt_length _ d i

@[simp] theorem length_set_fold_trigger (d : Doc) (i : Nat) (b : Bool) :
    (set_fold_trigger d i b).length = d.length := modifyAt_length _ d i

@[simp] theorem length_set_fold_trigger_state (d : Doc) (i : Nat) (b : Bool) :
    (set_fold_trigger_state d i b).length = d.length := modifyAt_length _ d i

@[simp] theorem length_set_visible (d : Doc) (i : Nat) (b : Bool) :
    (set_visible d i b).length = d.length := modifyAt_length _ d i

@[simp] theorem get_text_set_fold_lvl (d : Doc) (i v j : Nat) :
    get_text (set_fold_lvl d i v) j = get_text d j := by
  simp only [get_text, get_fold_lvl, is_fold_trigger, get_fold_trigger_state,
    is_visible, set_fold_lvl, set_fold_trigger, set_fold_trigger_state, set_visible,
    modifyAt_get?]
  split
  · cases d.get? j <;> rfl
  · rfl

@[simp] theorem get_text_set_fold_trigger (d : Doc) (i : Nat) (b : Bool) (j : Nat) :
    get_text (set_fold_trigger d i b) j = get_text d j := by
  simp only [get_text, get_fold_lvl, is_fold_trigger, get_fold_trigger_state,
    is_visible, set_fold_lvl, set_fold_trigger, set_fold_trigger_state, set_visible,
    modifyAt_get?]
  split
  · cases d.get? j <;> rfl
  · rfl

@[simp] theorem get_text_set_fold_trigger_state (d : Doc) (i : Nat) (b : Bool) (j : Nat) :
    get_text (set_fold_trigger_state d i b) j = get_text d j := by
  simp only [get_text, get_fold_lvl, is_fold_trigger, get_fold_trigger_state,
    is_visible, set_fold_lvl, set_fold_trigger, set_fold_trigger_state, set_visible,
    modifyAt_get?]
  split
  · cases d.get? j <;> rfl
  · rfl

@[simp] theorem get_text_set_visible (d : Doc) (i : Nat) (b : Bool) (j : Nat) :
    get_text (set_visible d i b) j = get_text d j := by
  simp only [get_text, get_fold_lvl, is_fold_trigger, get_fold_trigger_state,
    is_visible, set_fold_lvl, set_fold_trigger, set_fold_trigger_state, set_visible,
    modifyAt_get?]
  split
  · cases d.get? j <;> rfl
  · rfl

@[simp] theorem get_fold_lvl_set_fold_trigger (d : Doc) (i : Nat) (b : Bool) (j : Nat) :
    get_fold_lvl (set_fold_trigger d i b) j = get_fold_lvl d j := by
  simp only [get_text, get_fold_lvl, is_fold_trigger, get_fold_trigger_state,
    is_visible, set_fold_lvl, set_fold_trigger, set_fold_trigger_state, set_visible,
    modifyAt_get?]
  split
  · cases d.get? j <;> rfl
  · rfl

@[simp] theorem get_fold_lvl_set_fold_trigger_state (d : Doc) (i : Nat) (b : Bool) (j : Nat) :
    get_fold_lvl (set_fold_trigger_state d i b) j = get_fold_lvl d j := by
  simp only [get_text, get_fold_lvl, is_fold_trigger, get_fold_trigger_state,
    is_visible, set_fold_lvl, set_fold_trigger, set_fold_trigger_state, set_visible,
    modifyAt_get?]
  split
  · cases d.get? j <;> rfl
  · rfl

@[simp] theorem get_fold_lvl_set_visible (d : Doc) (i : Nat) (b : Bool) (j : Nat) :
    get_fold_lvl (set_visible d i b) j = get_fold_lvl d j := by
  simp only [get_text, get_fold_lvl, is_fold_trigger, get_fold_trigger_state,
    is_visible, set_fold_lvl, set_fold_trigger, set_fold_trigger_state, set_visible,
    modifyAt_get?]
  split
  · cases d.get? j <;> rfl
  · rfl

@[simp] theorem is_fold_trigger_set_fold_lvl (d : Doc) (i v j : Nat) :
    is_fold_trigger (set_fold_lvl d i v) j = is_fold_trigger d j := by
  simp only [get_text, get_fold_lvl, is_fold_trigger, get_fold_trigger_state,
    is_visible, set_fold_lvl, set_fold_trigger, set_fold_trigger_state, set_visible,
    modifyAt_get?]
  split
  · cases d.get? j <;> rfl
  · rfl

@[simp] theorem is_fold_trigger_set_fold_trigger_state (d : Doc) (i : Nat) (b : Bool) (j : Nat) :
    is_fold_trigger (set_fold_trigger_state d i b) j = is_fold_trigger d j := by
  simp only [get_text, get_fold_lvl, is_fold_trigger, get_fold_trigger_state,
    is_visible, set_fold_lvl, set_fold_trigger, set_fold_trigger_state, set_visible,
    modifyAt_get?]
  split
  · cases d.get? j <;> rfl
  · rfl

@[simp] theorem is_fold_trigger_set_visible (d : Doc) (i : Nat) (b : Bool) (j : Nat) :
    is_fold_trigger (set_visible d i b) j = is_fold_trigger d j := by
  simp only [get_text, get_fold_lvl, is_fold_trigger, get_fold_trigger_state,
    is_visible, set_fold_lvl, set_fold_trigger, set_fold_trigger_state, set_visible,
    modifyAt_get?]
  split
  · cases d.get? j <;> rfl
  · rfl

@[simp] theorem get_fold_trigger_state_set_fold_lvl (d : Doc) (i v j : Nat) :
    get_fold_trigger_state (set_fold_lvl d i v) j = get_fold_trigger_state d j := by
  simp only [get_text, get_fold_lvl, is_fold_trigger, get_fold_trigger_state,
    is_visible, set_fold_lvl, set_fold_trigger, set_fold_trigger_state, set_visible,
    modifyAt_get?]
  split
  · cases d.get? j <;> rfl
  · rfl

@[simp] theorem get_fold_trigger_state_set_fold_trigger (d : Doc) (i : Nat) (b : Bool) (j : Nat) :
    get_fold_trigger_state (set_fold_trigger d i b) j = get_fold_trigger_state d j := by
  simp only [get_text, get_fold_lvl, is_fold_trigger, get_fold_trigger_state,
    is_visible, set_fold_lvl, set_fold_trigger, set_fold_trigger_state, set_visible,
    modifyAt_get?]
  split
  · cases d.get? j <;> rfl
  · rfl

@[simp] theorem get_fold_trigger_state_set_visible (d : Doc) (i : Nat) (b : Bool) (j : Nat) :
    get_fold_trigger_state (set_visible d i b) j = get_fold_trigger_state d j := by
  simp only [get_text, get_fold_lvl, is_fold_trigger, get_fold_trigger_state,
    is_visible, set_fold_lvl, set_fold_trigger, set_fold_trigger_state, set_visible,
    modifyAt_get?]
  split
  · cases d.get? j <;> rfl
  · rfl

@[simp] theorem is_visible_set_fold_lvl (d : Doc) (i v j : Nat) :
    is_visible (set_fold_lvl d i v) j = is_visible d j := by
  simp only [get_text, get_fold_lvl, is_fold_trigger, get_fold_trigger_state,
    is_visible, set_fold_lvl, set_fold_trigger, set_fold_trigger_state, set_visible,
    modifyAt_get?]
  split
  · cases d.get? j <;> rfl
  · rfl

@[simp] theorem is_visible_set_fold_trigger (d : Doc) (i : Nat) (b : Bool) (j : Nat) :
    is_visible (set_fold_trigger d i b) j = is_visible d j := by
  simp only [get_text, get_fold_lvl, is_fold_trigger, get_fold_trigger_state,
    is_visible, set_fold_lvl, set_fold_trigger, set_fold_trigger_state, set_visible,
    modifyAt_get?]
  split
  · cases d.get? j <;> rfl
  · rfl

@[simp] theorem is_visible_set_fold_trigger_state (d : Doc) (i : Nat) (b : Bool) (j : Nat) :
    is_visible (set_fold_trigger_state d i b) j = is_visible d j := by
  simp only [get_text, get_fold_lvl, is_fold_trigger, get_fold_trigger_state,
    is_visible, set_fold_lvl, set_fold_trigger, set_fold_trigger_state, set_visible,
    modifyAt_get?]
  split
  · cases d.get? j <;> rfl
  · rfl

theorem get_fold_lvl_set_fold_lvl (d : Doc) (i : Nat) (b : Nat) (j : Nat) :
    get_fold_lvl (set_fold_lvl d i b) j =
      if i = j ∧ j < d.length then b else get_fold_lvl d j := by
  simp only [get_fold_lvl, set_fold_lvl, modifyAt_get?]
  cases h : d.get? j with
  | none =>
    have hlen : d.length ≤ j := List.get?_eq_none.mp h
    split_ifs <;> simp_all
  | some l =>
    have hlen : j < d.length := by
      by_contra hc
      rw [List.get?_eq_none.mpr (by omega)] at h
      exact Option.noConfusion h
    split_ifs <;> simp_all

theorem is_fold_trigger_set_fold_trigger (d : Doc) (i : Nat) (b : Bool) (j : Nat) :
    is_fold_trigger (set_fold_trigger d i b) j =
      if i = j ∧ j < d.length then b else is_fold_trigger d j := by
  simp only [is_fold_trigger, set_fold_trigger, modifyAt_get?]
  cases h : d.get? j with
  | none =>
    have hlen : d.length ≤ j := List.get?_eq_none.mp h
    split_ifs <;> simp_all
  | some l =>
    have hlen : j < d.length := by
      by_contra hc
      rw [List.get?_eq_none.mpr (by omega)] at h
      exact Option.noConfusion h
    split_ifs <;> simp_all

theorem get_fold_trigger_state_set_fold_trigger_state (d : Doc) (i : Nat) (b : Bool) (j : Nat) :
    get_fold_trigger_state (set_fold_trigger_state d i b) j =
      if i = j ∧ j < d.length then b else get_fold_trigger_state d j := by
  simp only [get_fold_trigger_state, set_fold_trigger_state, modifyAt_get?]
  cases h : d.get? j with
  | none =>
    have hlen : d.length ≤ j := List.get?_eq_none.mp h
    split_ifs <;> simp_all
  | some l =>
    have hlen : j < d.length := by
      by_contra hc
      rw [List.get?_eq_none.mpr (by omega)] at h
      exact Option.noConfusion h
    split_ifs <;> simp_all

theorem is_visible_set_visible (d : Doc) (i : Nat) (b : Bool) (j : Nat) :
    is_visible (set_visible d i b) j =
      if i = j ∧ j < d.length then b else is_visible d j := by
  simp only [is_visible, set_visible, modifyAt_get?]
  cases h : d.get? j with
  | none =>
    have hlen : d.length ≤ j := List.get?_eq_none.mp h
    split_ifs <;> simp_all
  | some l =>
    have hlen : j < d.length := by
      by_contra hc
      rw [List.get?_eq_none.mpr (by omega)] at h
      exact Option.noConfusion h
    split_ifs <;> simp_all

end PointwiseLemmas

section NeighbourLemmas

theorem prevNonBlank_spec {ts : List (List Char)} {i p : Nat}
    (h : prevNonBlank ts i = some p) :
    p < i ∧ ¬ blankTs ts p ∧ ∀ j, p < j → j < i → blankTs ts j := by
  induction i with
  | zero => exact Option.noConfusion h
  | succ i ih =>
    rw [prevNonBlank] at h
    split at h
    · rename_i hb
      obtain ⟨h1, h2, h3⟩ := ih h
      exact ⟨by omega, h2, fun j hj1 hj2 => by
        rcases Nat.lt_or_ge j i with hj | hj
        · exact h3 j hj1 hj
        · have : j = i := by omega
          subst this
          exact hb⟩
    · rename_i hb
      cases h
      exact ⟨by omega, hb, fun j hj1 hj2 => by omega⟩

theorem prevNonBlank_none_spec {ts : List (List Char)} {i : Nat}
    (h : prevNonBlank ts i = none) : ∀ j, j < i → blankTs ts j := by
  induction i with
  | zero => exact fun j hj => absurd hj (by omega)
  | succ i ih =>
    rw [prevNonBlank] at h
    split at h
    · rename_i hb
      intro j hj
      rcases Nat.lt_or_ge j i with hj2 | hj2
      · exact ih h j hj2
      · have : j = i := by omega
        subst this
        exact hb
    · exact Option.noConfusion h

theorem prevNonBlank_of_spec {ts : List (List Char)} {i p : Nat}
    (h1 : p < i) (h2 : ¬ blankTs ts p) (h3 : ∀ j, p < j → j < i → blankTs ts j) :
    prevNonBlank ts i = some p := by
  induction i with
  | zero => omega
  | succ i ih =>
    rw [prevNonBlank]
    rcases Nat.lt_or_ge p i with hp | hp
    · rw [if_pos (h3 i hp (by omega))]
      exact ih hp (fun j hj1 hj2 => h3 j hj1 (by omega))
    · have : p = i := by omega
      subst this
      rw [if_neg h2]

theorem nextNonBlankAux_spec {rest : List (List Char)} {base m : Nat}
    (h : nextNonBlankAux rest base = some m) :
    base ≤ m ∧ m - base < rest.length ∧ isBlankText (rest.getD (m - base) []) = false ∧
      ∀ j, base ≤ j → j < m → isBlankText (rest.getD (j - base) []) = true := by
  induction rest generalizing base with
  | nil => exact Option.noConfusion h
  | cons t rest ih =>
    rw [nextNonBlankAux] at h
    split at h
    · rename_i hb
      obtain ⟨h1, h2, h3, h4⟩ := ih h
      refine ⟨by omega, by simp; omega, ?_, ?_⟩
      · have hm : m - base = (m - (base + 1)) + 1 := by omega
        rw [hm]
        simpa using h3
      · intro j hj1 hj2
        rcases Nat.eq_or_lt_of_le hj1 with hj | hj
        · subst hj
          simpa using hb
        · have hjj : j - base = (j - (base + 1)) + 1 := by omega
          rw [hjj]
          simpa using h4 j (by omega) hj2
    · rename_i hb
      cases h
      refine ⟨by omega, by simp, by simpa using hb, fun j hj1 hj2 => by omega⟩

theorem nextNonBlank_spec {ts : List (List Char)} {i m : Nat}
    (h : nextNonBlank ts i = some m) :
    i < m ∧ m < ts.length ∧ ¬ blankTs ts m ∧ ∀ j, i < j → j < m → blankTs ts j := by
  obtain ⟨h1, h2, h3, h4⟩ := nextNonBlankAux_spec h
  have hlen : m < ts.length := by
    have := List.length_drop (i + 1) ts
    omega
  have hget : ∀ j, i + 1 ≤ j → j < ts.length →
      (ts.drop (i + 1)).getD (j - (i + 1)) [] = ts.getD j [] := by
    intro j hj1 hj2
    have hidx : i + 1 + (j - (i + 1)) = j := by omega
    rw [List.getD_eq_getElem?_getD, List.getD_eq_getElem?_getD, List.getElem?_drop, hidx]
  refine ⟨by omega, hlen, ?_, ?_⟩
  · have h3' := h3
    rw [hget m (by omega) hlen] at h3'
    intro hc
    rw [hc] at h3'
    exact Bool.noConfusion h3'
  · intro j hj1 hj2
    have hj := h4 j (by omega) hj2
    rw [hget j (by omega) (by omega)] at hj
    exact hj

theorem nextNonBlankAux_of_spec {rest : List (List Char)} {base m : Nat}
    (h1 : base ≤ m) (h2 : m - base < rest.length)
    (h3 : isBlankText (rest.getD (m - base) []) = false)
    (h4 : ∀ j, base ≤ j → j < m → isBlankText (rest.getD (j - base) []) = true) :
    nextNonBlankAux rest base = some m := by
  induction rest generalizing base with
  | nil => simp at h2
  | cons t rest ih =>
    rw [nextNonBlankAux]
    rcases Nat.eq_or_lt_of_le h1 with hm | hm
    · subst hm
      simp at h3
      rw [if_neg (by simp [h3])]
    · have hb : isBlankText t = true := by simpa using h4 base (by omega) hm
      rw [if_pos hb]
      refine ih (by omega) ?_ ?_ ?_
      · simp at h2
        omega
      · have : m - base = (m - (base + 1)) + 1 := by omega
        rw [this] at h3
        simpa using h3
      · intro j hj1 hj2
        have : j - base = (j - (base + 1)) + 1 := by omega
        have := h4 j (by omega) hj2
        rw [‹j - base = (j - (base + 1)) + 1›] at this
        simpa using this

theorem nextNonBlank_of_spec {ts : List (List Char)} {i m : Nat}
    (h1 : i < m) (h2 : m < ts.length) (h3 : ¬ blankTs ts m)
    (h4 : ∀ j, i < j → j < m → blankTs ts j) :
    nextNonBlank ts i = some m := by
  have hget : ∀ j, i + 1 ≤ j → j < ts.length →
      (ts.drop (i + 1)).getD (j - (i + 1)) [] = ts.getD j [] := by
    intro j hj1 hj2
    have hidx : i + 1 + (j - (i + 1)) = j := by omega
    rw [List.getD_eq_getElem?_getD, List.getD_eq_getElem?_getD, List.getElem?_drop, hidx]
  refine nextNonBlankAux_of_spec (by omega) ?_ ?_ ?_
  · rw [List.length_drop]
    omega
  · rw [hget m (by omega) h2]
    unfold blankTs at h3
    simpa using h3
  · intro j hj1 hj2
    rw [hget j hj1 (by omega)]
    exact h4 j (by omega) hj2

/-- The two neighbour searches are inverse on a non-blank pair separated by
a blank gap. -/
theorem nextNonBlank_of_prevNonBlank {ts : List (List Char)} {k p : Nat}
    (hk : k < ts.length) (hnb : ¬ blankTs ts k) (h : prevNonBlank ts k = some p) :
    nextNonBlank ts p = some k := by
  obtain ⟨h1, h2, h3⟩ := prevNonBlank_spec h
  exact nextNonBlank_of_spec h1 hk hnb h3

theorem prevNonBlank_of_nextNonBlank {ts : List (List Char)} {j k : Nat}
    (hnb : ¬ blankTs ts j) (h : nextNonBlank ts j = some k) :
    prevNonBlank ts k = some j := by
  obtain ⟨h1, h2, h3, h4⟩ := nextNonBlank_spec h
  exact prevNonBlank_of_spec h1 hnb h4

theorem prevNonBlank_lt {ts : List (List Char)} {i p : Nat}
    (h : prevNonBlank ts i = some p) : p < i := (prevNonBlank_spec h).1

/-- Below a blank line, the previous non-blank line of the line and of its
following non-blank line agree. -/
theorem prevNonBlank_congr_blank {ts : List (List Char)} {j m : Nat}
    (hb : blankTs ts j) (hjm : j ≤ m) (hgap : ∀ t, j ≤ t → t < m → blankTs ts t) :
    prevNonBlank ts m = prevNonBlank ts j := by
  induction m with
  | zero =>
    have : j = 0 := by omega
    subst this
    rfl
  | succ m ih =>
    rcases Nat.eq_or_lt_of_le hjm with hj | hj
    · rw [hj]
    · rw [prevNonBlank, if_pos (hgap m (by omega) (by omega))]
      exact ih (by omega) (fun t ht1 ht2 => hgap t ht1 (by omega))

end NeighbourLemmas

section WalkLemmas

@[simp] theorem walkBack_length (fl : Nat) (d : Doc) (k : Nat) :
    (walkBack fl d k).1.length = d.length := by
  induction k generalizing d with
  | zero => rfl
  | succ k ih =>
    rw [walkBack]
    split
    · rw [ih]
      simp
    · rfl

@[simp] theorem walkBack_text (fl : Nat) (d : Doc) (k j : Nat) :
    get_text (walkBack fl d k).1 j = get_text d j := by
  induction k generalizing d with
  | zero => rfl
  | succ k ih =>
    rw [walkBack]
    split
    · rw [ih]
      simp
    · rfl

@[simp] theorem walkBack_trigger (fl : Nat) (d : Doc) (k j : Nat) :
    is_fold_trigger (walkBack fl d k).1 j = is_fold_trigger d j := by
  induction k generalizing d with
  | zero => rfl
  | succ k ih =>
    rw [walkBack]
    split
    · rw [ih]
      simp
    · rfl

@[simp] theorem walkBack_state (fl : Nat) (d : Doc) (k j : Nat) :
    get_fold_trigger_state (walkBack fl d k).1 j = get_fold_trigger_state d j := by
  induction k generalizing d with
  | zero => rfl
  | succ k ih =>
    rw [walkBack]
    split
    · rw [ih]
      simp
    · rfl

@[simp] theorem walkBack_visible (fl : Nat) (d : Doc) (k j : Nat) :
    is_visible (walkBack fl d k).1 j = is_visible d j := by
  induction k generalizing d with
  | zero => rfl
  | succ k ih =>
    rw [walkBack]
    split
    · rw [ih]
      simp
    · rfl

theorem walkBack_stop_lt {fl : Nat} {d : Doc} {k j : Nat}
    (h : (walkBack fl d k).2 = some j) : j < k := by
  induction k generalizing d with
  | zero => exact Option.noConfusion h
  | succ k ih =>
    rw [walkBack] at h
    split at h
    · exact Nat.lt_succ_of_lt (ih h)
    · cases h
      omega

theorem walkBack_stop_nonblank {fl : Nat} {d : Doc} {k j : Nat}
    (h : (walkBack fl d k).2 = some j) : isBlankText (get_text d j) = false := by
  induction k generalizing d with
  | zero => exact Option.noConfusion h
  | succ k ih =>
    rw [walkBack] at h
    split at h
    · have := ih h
      rwa [get_text_set_fold_lvl] at this
    · rename_i hb
      cases h
      simpa using hb

theorem walkBack_char_stop {d : Doc} {k p : Nat} (fl : Nat)
    (hp : p < k) (hnb : isBlankText (get_text d p) = false)
    (hgap : ∀ j, p < j → j < k → isBlankText (get_text d j) = true) :
    (walkBack fl d k).2 = some p ∧
      ∀ j, get_fold_lvl (walkBack fl d k).1 j =
        if p < j ∧ j < k ∧ j < d.length then fl else get_fold_lvl d j := by
  induction k generalizing d with
  | zero => omega
  | succ k ih =>
    rw [walkBack]
    rcases Nat.lt_or_ge p k with hpk | hpk
    · rw [if_pos (hgap k hpk (by omega))]
      have hrec := ih (d := set_fold_lvl d k fl) hpk
        (by rwa [get_text_set_fold_lvl])
        (fun j hj1 hj2 => by
          rw [get_text_set_fold_lvl]
          exact hgap j hj1 (by omega))
      refine ⟨hrec.1, fun j => ?_⟩
      rw [hrec.2 j, get_fold_lvl_set_fold_lvl]
      have hlen : (set_fold_lvl d k fl).length = d.length := by simp
      rw [hlen]
      by_cases h1 : p < j ∧ j < k ∧ j < d.length
      · rw [if_pos h1, if_pos ⟨h1.1, by omega, h1.2.2⟩]
      · rw [if_neg h1]
        by_cases h2 : k = j ∧ j < d.length
        · rw [if_pos h2, if_pos ⟨by omega, by omega, h2.2⟩]
        · rw [if_neg h2, if_neg (by omega)]
    · have : p = k := by omega
      subst this
      rw [if_neg (by simp [hnb])]
      exact ⟨rfl, fun j => by rw [if_neg (by omega)]⟩

theorem walkBack_char_none {d : Doc} {k : Nat} (fl : Nat)
    (hall : ∀ j, j < k → isBlankText (get_text d j) = true) :
    (walkBack fl d k).2 = none ∧
      ∀ j, get_fold_lvl (walkBack fl d k).1 j =
        if j < k ∧ j < d.length then fl else get_fold_lvl d j := by
  induction k generalizing d with
  | zero =>
    refine ⟨rfl, fun j => ?_⟩
    rw [if_neg (by omega)]
    rfl
  | succ k ih =>
    rw [walkBack, if_pos (hall k (by omega))]
    have hrec := ih (d := set_fold_lvl d k fl)
      (fun j hj => by
        rw [get_text_set_fold_lvl]
        exact hall j (by omega))
    refine ⟨hrec.1, fun j => ?_⟩
    rw [hrec.2 j, get_fold_lvl_set_fold_lvl]
    have hlen : (set_fold_lvl d k fl).length = d.length := by simp
    rw [hlen]
    by_cases h1 : j < k ∧ j < d.length
    · rw [if_pos h1, if_pos ⟨by omega, h1.2⟩]
    · rw [if_neg h1]
      by_cases h2 : k = j ∧ j < d.length
      · rw [if_pos h2, if_pos ⟨by omega, h2.2⟩]
      · rw [if_neg h2, if_neg (by omega)]

theorem clampLvl_le (pl c : Nat) : clampLvl pl c ≤ pl + 1 ∨ clampLvl pl c = c := by
  unfold clampLvl
  split
  · left
    omega
  · right
    rfl

theorem clampLvl_le_succ (pl c : Nat) : clampLvl pl c ≤ pl + 1 := by
  unfold clampLvl
  split <;> omega

theorem clampLvl_lt_iff (pl c : Nat) : pl < clampLvl pl c ↔ pl < c := by
  unfold clampLvl
  split <;> omega

theorem clampLvl_le_raiseLvl (pl c : Nat) : clampLvl pl c ≤ raiseLvl pl c := by
  unfold clampLvl raiseLvl
  split <;> split <;> omega

end WalkLemmas

section ScanTrimLemmas

theorem scanEnd_ge (refLvl : Int) (rest : List Line) :
    ∀ b last : Nat, last ≤ b → last ≤ FoldScope.scanEnd refLvl rest b last := by
  induction rest with
  | nil => exact fun b last h => Nat.le_refl last
  | cons l ls ih =>
    intro b last h
    rw [FoldScope.scanEnd]
    split
    · exact le_trans (by omega) (ih (b + 1) b (by omega))
    · exact Nat.le_refl last

theorem scanEnd_lt (refLvl : Int) (rest : List Line) :
    ∀ b last L : Nat, last < L → b + rest.length ≤ L →
      FoldScope.scanEnd refLvl rest b last < L := by
  induction rest with
  | nil => exact fun b last L h _ => h
  | cons l ls ih =>
    intro b last L h1 h2
    rw [FoldScope.scanEnd]
    simp at h2
    split
    · exact ih (b + 1) b L (by omega) (by omega)
    · exact h1

theorem trimBlanks_le (d : Doc) (j : Nat) : FoldScope.trimBlanks d j ≤ j := by
  induction j with
  | zero => exact Nat.le_refl 0
  | succ j ih =>
    rw [FoldScope.trimBlanks]
    split
    · omega
    · exact Nat.le_refl _

theorem trimBlanks_ge {d : Doc} {i : Nat}
    (hnb : isBlankText (get_text d i) = false) :
    ∀ j, i ≤ j → i ≤ FoldScope.trimBlanks d j := by
  intro j
  induction j with
  | zero => exact fun h => h
  | succ j ih =>
    intro hij
    rw [FoldScope.trimBlanks]
    split
    · rename_i hb
      have hne : i ≠ j + 1 := by
        intro hc
        rw [hc] at hnb
        rw [hnb] at hb
        exact Bool.noConfusion hb
      exact ih (by omega)
    · exact hij

end ScanTrimLemmas

section PrintTreeLemmas

theorem formatLine_true_eq (i : Nat) (l : Line) :
    formatLine true i l = some (recordFor i l) := by
  unfold formatLine recordFor
  cases ht : l.trigger <;> simp [ht]

theorem print_tree_go_spec (ls : List Line) :
    ∀ i : Nat, (print_tree_go true ls i).length = ls.length ∧
      ∀ j l, ls.get? j = some l →
        (print_tree_go true ls i).get? j = some (recordFor (i + j) l) := by
  induction ls with
  | nil => exact fun i => ⟨rfl, fun j l h => Option.noConfusion h⟩
  | cons x ls ih =>
    intro i
    rw [print_tree_go, formatLine_true_eq]
    constructor
    · simpa using (ih (i + 1)).1
    · intro j l h
      cases j with
      | zero =>
        cases h
        simp
      | succ j =>
        have hrec := (ih (i + 1)).2 j l (by simpa using h)
        have harith : i + 1 + j = i + (j + 1) := by omega
        rw [harith] at hrec
        simpa using hrec

end PrintTreeLemmas

section MiscLemmas

theorem get_text_docTexts (d : Doc) (j : Nat) :
    (docTexts d).getD j [] = get_text d j := by
  rw [docTexts, get_text, List.getD_eq_getElem?_getD, List.getElem?_map,
    List.get?_eq_getElem?]

end MiscLemmas

section StageLemmas

theorem applyWalk_text (fl0 pl : Nat) (d : Doc) (i j : Nat) :
    get_text (applyWalk fl0 pl d i) j = get_text d j := by
  unfold applyWalk
  split
  · rcases hw : walkBack fl0 d i with ⟨W, s⟩
    have hW : get_text W j = get_text d j := by
      have h := walkBack_text fl0 d i j
      rw [hw] at h
      exact h
    cases s
    · exact hW
    · rw [get_text_set_fold_trigger]
      exact hW
  · rfl

theorem applyWalk_state (fl0 pl : Nat) (d : Doc) (i j : Nat) :
    get_fold_trigger_state (applyWalk fl0 pl d i) j = get_fold_trigger_state d j := by
  unfold applyWalk
  split
  · rcases hw : walkBack fl0 d i with ⟨W, s⟩
    have hW : get_fold_trigger_state W j = get_fold_trigger_state d j := by
      have h := walkBack_state fl0 d i j
      rw [hw] at h
      exact h
    cases s
    · exact hW
    · rw [get_fold_trigger_state_set_fold_trigger]
      exact hW
  · rfl

theorem applyWalk_visible (fl0 pl : Nat) (d : Doc) (i j : Nat) :
    is_visible (applyWalk fl0 pl d i) j = is_visible d j := by
  unfold applyWalk
  split
  · rcases hw : walkBack fl0 d i with ⟨W, s⟩
    have hW : is_visible W j = is_visible d j := by
      have h := walkBack_visible fl0 d i j
      rw [hw] at h
      exact h
    cases s
    · exact hW
    · rw [is_visible_set_fold_trigger]
      exact hW
  · rfl

theorem applyWalk_length (fl0 pl : Nat) (d : Doc) (i : Nat) :
    (applyWalk fl0 pl d i).length = d.length := by
  unfold applyWalk
  split
  · rcases hw : walkBack fl0 d i with ⟨W, s⟩
    have hW : W.length = d.length := by
      have h := walkBack_length fl0 d i
      rw [hw] at h
      exact h
    cases s
    · exact hW
    · rw [length_set_fold_trigger]
      exact hW
  · rfl

theorem applyWalk_trigger_blank {d : Doc} {j : Nat} (fl0 pl i : Nat)
    (hb : isBlankText (get_text d j) = true) :
    is_fold_trigger (applyWalk fl0 pl d i) j = is_fold_trigger d j := by
  unfold applyWalk
  split
  · rcases hw : walkBack fl0 d i with ⟨W, s⟩
    have hW : is_fold_trigger W j = is_fold_trigger d j := by
      have h := walkBack_trigger fl0 d i j
      rw [hw] at h
      exact h
    cases s with
    | none => exact hW
    | some a =>
      have hanb : isBlankText (get_text d a) = false :=
        @walkBack_stop_nonblank fl0 d i a (by rw [hw])
      have hne : a ≠ j := by
        intro hc
        rw [hc, hb] at hanb
        exact Bool.noConfusion hanb
      rw [is_fold_trigger_set_fold_trigger, if_neg (by intro hc; exact hne hc.1)]
      exact hW
  · rfl

theorem applyWalk_trigger_ge {d : Doc} {i j : Nat} (fl0 pl : Nat) (hj : i ≤ j) :
    is_fold_trigger (applyWalk fl0 pl d i) j = is_fold_trigger d j := by
  unfold applyWalk
  split
  · rcases hw : walkBack fl0 d i with ⟨W, s⟩
    have hW : is_fold_trigger W j = is_fold_trigger d j := by
      have h := walkBack_trigger fl0 d i j
      rw [hw] at h
      exact h
    cases s with
    | none => exact hW
    | some a =>
      have halt : a < i := @walkBack_stop_lt fl0 d i a (by rw [hw])
      rw [is_fold_trigger_set_fold_trigger, if_neg (by intro hc; omega)]
      exact hW
  · rfl

theorem applyEnterFix_fires {d : Doc} {i : Nat}
    (h1 : 1 ≤ i) (hb : isBlankText (get_text d (i - 1)) = true)
    (ht : is_fold_trigger d (i - 1) = true) (hlen : i < d.length) :
    get_fold_trigger_state (applyEnterFix d i) i = get_fold_trigger_state d (i - 1) ∧
      is_fold_trigger (applyEnterFix d i) (i - 1) = false ∧
      get_fold_trigger_state (applyEnterFix d i) (i - 1) = false ∧
      is_fold_trigger (applyEnterFix d i) i = is_fold_trigger d i := by
  unfold applyEnterFix
  rw [if_pos ⟨h1, hb, ht⟩]
  have hi1 : i - 1 < d.length := by omega
  have hne : i - 1 ≠ i := by omega
  refine ⟨?_, ?_, ?_, ?_⟩
  · rw [get_fold_trigger_state_set_fold_trigger_state]
    rw [if_neg (by intro hc; exact hne hc.1)]
    rw [get_fold_trigger_state_set_fold_trigger,
      get_fold_trigger_state_set_fold_trigger_state]
    rw [if_pos ⟨rfl, hlen⟩]
  · rw [is_fold_trigger_set_fold_trigger_state, is_fold_trigger_set_fold_trigger]
    rw [if_pos ⟨rfl, by simpa using hi1⟩]
  · rw [get_fold_trigger_state_set_fold_trigger_state]
    rw [if_pos ⟨rfl, by simpa using hi1⟩]
  · rw [is_fold_trigger_set_fold_trigger_state, is_fold_trigger_set_fold_trigger]
    rw [if_neg (by intro hc; exact hne hc.1), is_fold_trigger_set_fold_trigger_state]

/-- `process_block` is the enter-pressed fix-up applied to an intermediate
document that keeps the texts, collapsed states and visibility of the input,
and whose trigger flags can differ from the input only on a non-blank line
strictly below `i`. -/
theorem process_block_eq_enterFix (limit : Nat)
    (detect : Option (List Char) → List Char → Nat) (d : Doc) (i : Nat)
    (pnb : Option Nat)
    (hp : ∀ p, pnb = some p → isBlankText (get_text d p) = false ∧ p < i) :
    ∃ D, process_block limit detect d i pnb = applyEnterFix D i ∧
      (∀ j, get_text D j = get_text d j) ∧
      (∀ j, get_fold_trigger_state D j = get_fold_trigger_state d j) ∧
      (∀ j, is_visible D j = is_visible d j) ∧
      D.length = d.length ∧
      (∀ j, isBlankText (get_text d j) = true →
        is_fold_trigger D j = is_fold_trigger d j) ∧
      (∀ j, i ≤ j → is_fold_trigger D j = is_fold_trigger d j) := by
  refine ⟨_, rfl, ?_, ?_, ?_, ?_, ?_, ?_⟩
  · intro j
    rw [get_text_set_fold_lvl]
    split
    · exact applyWalk_text _ _ _ _ _
    · cases hq : pnb with
      | none => exact applyWalk_text _ _ _ _ _
      | some p =>
        rw [get_text_set_fold_trigger]
        exact applyWalk_text _ _ _ _ _
  · intro j
    rw [get_fold_trigger_state_set_fold_lvl]
    split
    · exact applyWalk_state _ _ _ _ _
    · cases hq : pnb with
      | none => exact applyWalk_state _ _ _ _ _
      | some p =>
        rw [get_fold_trigger_state_set_fold_trigger]
        exact applyWalk_state _ _ _ _ _
  · intro j
    rw [is_visible_set_fold_lvl]
    split
    · exact applyWalk_visible _ _ _ _ _
    · cases hq : pnb with
      | none => exact applyWalk_visible _ _ _ _ _
      | some p =>
        rw [is_visible_set_fold_trigger]
        exact applyWalk_visible _ _ _ _ _
  · rw [length_set_fold_lvl]
    split
    · rw [applyWalk_length]
    · cases hq : pnb with
      | none => rw [applyWalk_length]
      | some p =>
        rw [length_set_fold_trigger, applyWalk_length]
  · intro j hbj
    rw [is_fold_trigger_set_fold_lvl]
    split
    · exact applyWalk_trigger_blank _ _ _ hbj
    · cases hq : pnb with
      | none => exact applyWalk_trigger_blank _ _ _ hbj
      | some p =>
        have hpp := hp p hq
        have hne : p ≠ j := by
          intro hc
          rw [hc, hbj] at hpp
          exact Bool.noConfusion hpp.1
        rw [is_fold_trigger_set_fold_trigger, if_neg (by intro hc; exact hne hc.1)]
        exact applyWalk_trigger_blank _ _ _ hbj
  · intro j hij
    rw [is_fold_trigger_set_fold_lvl]
    split
    · exact applyWalk_trigger_ge _ _ hij
    · cases hq : pnb with
      | none => exact applyWalk_trigger_ge _ _ hij
      | some p =>
        have hpp := hp p hq
        rw [is_fold_trigger_set_fold_trigger, if_neg (by intro hc; omega)]
        exact applyWalk_trigger_ge _ _ hij

end StageLemmas

section RangeLemmas

theorem rangeScan_ge (d : Doc) (i : Nat) : i + 1 ≤ rangeScan d i := by
  unfold rangeScan
  exact scanEnd_ge _ _ _ _ (Nat.le_refl _)

theorem rangeScan_lt {d : Doc} {i : Nat} (h : i + 1 < d.length) :
    rangeScan d i < d.length := by
  unfold rangeScan
  exact scanEnd_lt _ _ _ _ _ h (by rw [List.length_drop]; omega)

theorem get_range_valid {d : Doc} {i : Nat} (ig : Bool) (hlen : i + 1 < d.length) :
    FoldScope.get_range d i ig =
      if ig && (rangeScan d i != 0) then
        ((i : Int), (FoldScope.trimBlanks d (rangeScan d i) : Int))
      else ((i : Int), (rangeScan d i : Int)) := by
  rw [FoldScope.get_range, if_pos hlen]
  rfl

theorem trigger_lt_length {d : Doc} {i : Nat} (h : is_fold_trigger d i = true) :
    i < d.length := by
  by_contra hc
  unfold is_fold_trigger at h
  rw [List.get?_eq_none.mpr (by omega)] at h
  exact Bool.noConfusion h

theorem get_range_last_true {d : Doc} {i : Nat} (hlen : ¬ i + 1 < d.length)
    (hi : i < d.length) :
    FoldScope.get_range d i true =
      ((i : Int), (FoldScope.trimBlanks d (d.length - 1) : Int)) := by
  rw [FoldScope.get_range, if_neg hlen]
  show ((if i < d.length then (i : Int) else -1),
    (FoldScope.trimBlanks d (d.length - 1) : Int)) = _
  rw [if_pos hi]

theorem get_range_last_false {d : Doc} {i : Nat} (hlen : ¬ i + 1 < d.length)
    (hi : i < d.length) :
    FoldScope.get_range d i false = ((i : Int), -1) := by
  rw [FoldScope.get_range, if_neg hlen]
  show ((if i < d.length then (i : Int) else -1), (-1 : Int)) = _
  rw [if_pos hi]

theorem hideLoop_oob (e : Int) (fuel : Nat) (d : Doc) (b : Nat)
    (h : ¬ b < d.length) : FoldScope.hideLoop e fuel d b = d := by
  cases fuel with
  | zero => rw [FoldScope.hideLoop]
  | succ fuel => rw [FoldScope.hideLoop, if_neg (fun hc => h hc.1)]

theorem fold_eq {d : Doc} {i : Nat} (hlen : i + 1 < d.length) :
    FoldScope.fold d i =
      FoldScope.hideLoop (foldEnd d i) d.length
        (set_fold_trigger_state d i true) (i + 1) := by
  have hge := rangeScan_ge d i
  rw [FoldScope.fold, get_range_valid true hlen,
    if_pos (show (true && (rangeScan d i != 0)) = true by simp [bne_iff_ne]; omega)]
  rfl

theorem fold_last {d : Doc} {i : Nat} (hlen : ¬ i + 1 < d.length) :
    FoldScope.fold d i = set_fold_trigger_state d i true := by
  rw [FoldScope.fold]
  exact hideLoop_oob _ _ _ _ (by rw [length_set_fold_trigger_state]; omega)

end RangeLemmas

-- ======================================================================
-- Claim theorems
-- ======================================================================

/-- C4: for the document `["def f():", "    x = 1", "    y = 2", "z = 3"]`
with tab width 4, a full pass yields fold levels `[0, 1, 1, 0]`; line 0 is a
trigger and is expanded (collapsed state false); and `get_range` on the
scope of line 0 returns `(0, 2)`. -/
theorem c4_scenario1 :
    scen1Doc.map Line.foldLvl = [0, 1, 1, 0] ∧
      is_fold_trigger scen1Doc 0 = true ∧
      get_fold_trigger_state scen1Doc 0 = false ∧
      FoldScope.get_range scen1Doc 0 true = (0, 2) :=
  ⟨by decide, by decide, by decide, by decide⟩

/-- C9: constructing a `FoldScope` succeeds exactly on fold trigger lines
and fails with the `Not a fold trigger` error (the spec's
`InvalidScopeError`) otherwise; the constructor reads but never writes line
state (it is a pure function of the document).  In particular, construction
from line 1 of the scenario-1 document fails. -/
theorem c9_make_trigger_only :
    (∀ (d : Doc) (i : Nat),
      (∃ v, FoldScope.make d i = Except.ok v) ↔ is_fold_trigger d i = true) ∧
      FoldScope.make scen1Doc 1 = Except.error "Not a fold trigger" := by
  refine ⟨fun d i => ?_, by rfl⟩
  unfold FoldScope.make
  split
  · rename_i h
    simp [h]
  · rename_i h
    simp [h]

/-- C7, counterexample: `get_range` does not always return a pair with
`last_line ≥ first_line`.  On a trigger sitting on the last line,
`get_range` without blank-line trimming returns `last_line = -1 <
first_line = 0` (the block number of the invalid block after the trigger);
and on a blank line carrying a (transient) trigger flag whose body is all
blank, the default trimmed mode trims past the trigger line and returns
`last_line = 0 < first_line = 1`. -/
theorem c7_counterexample :
    (is_fold_trigger exC7Doc 0 = true ∧
      ∃ e : Int, FoldScope.get_range exC7Doc 0 false = (0, e) ∧ e < 0) ∧
      (is_fold_trigger exC7bDoc 1 = true ∧
        ∃ f l : Int, FoldScope.get_range exC7bDoc 1 true = (f, l) ∧ l < f) :=
  ⟨⟨by decide, ⟨-1, by decide, by decide⟩⟩,
    ⟨by decide, ⟨1, 0, by decide, by decide⟩⟩⟩

/-- C7 amended: `get_range` always returns the trigger's own line number as
`first_line`.  In the default trimmed mode, `last_line ≥ first_line` holds
for every position of a non-blank trigger line, including the last line of
the document (there the trim loop steps from the invalid successor block
back to the document's last block and trims upward, stopping at the
non-blank trigger at the latest).  In untrimmed mode, whenever a line
follows the trigger the returned `last_line` is strictly greater than
`first_line`, so the body starts strictly after the trigger line; on a
last-line trigger untrimmed `last_line` is `-1 < first_line` instead. -/
theorem c7_get_range_amended :
    ∀ (d : Doc) (i : Nat), is_fold_trigger d i = true →
      (isBlankText (get_text d i) = false →
        ∃ e : Nat, FoldScope.get_range d i true = ((i : Int), (e : Int)) ∧ i ≤ e) ∧
      (i + 1 < d.length →
        ∃ e : Nat, FoldScope.get_range d i false = ((i : Int), (e : Int)) ∧ i < e) := by
  intro d i htrig
  have hi : i < d.length := trigger_lt_length htrig
  constructor
  · intro hnb
    by_cases hlen : i + 1 < d.length
    · have hge := rangeScan_ge d i
      rw [get_range_valid true hlen,
        if_pos (show (true && (rangeScan d i != 0)) = true by
          simp [bne_iff_ne]; omega)]
      exact ⟨FoldScope.trimBlanks d (rangeScan d i), rfl,
        trimBlanks_ge hnb _ (by omega)⟩
    · rw [get_range_last_true hlen hi]
      exact ⟨FoldScope.trimBlanks d (d.length - 1), rfl,
        trimBlanks_ge hnb _ (by omega)⟩
  · intro hlen
    have hge := rangeScan_ge d i
    rw [get_range_valid false hlen, if_neg (by simp)]
    exact ⟨rangeScan d i, rfl, by omega⟩

/-- C7 witness: the amended range theorem applied to the scenario-1 document
at its trigger line 0, both blank-line modes. -/
theorem c7_get_range_witness :
    (is_fold_trigger scen1Doc 0 = true ∧
      isBlankText (get_text scen1Doc 0) = false ∧ 0 + 1 < scen1Doc.length) ∧
      (∃ e : Nat, FoldScope.get_range scen1Doc 0 true =
        ((0 : Int), (e : Int)) ∧ 0 ≤ e) ∧
      (∃ e : Nat, FoldScope.get_range scen1Doc 0 false =
        ((0 : Int), (e : Int)) ∧ 0 < e) :=
  ⟨⟨by decide, by decide, by decide⟩,
    (c7_get_range_amended scen1Doc 0 (by decide)).1 (by decide),
    (c7_get_range_amended scen1Doc 0 (by decide)).2 (by decide)⟩

/-- C10, counterexample: `print_tree` with its default `print_blocks=False`
prints a record only for trigger lines, not one per line (here 1 record for
a 2-line document), and the trigger character is `+` for a collapsed
trigger (the collapsed state of line 0 is true and its record reads
`l1:0+V`), not `-` as the claim states. -/
theorem c10_counterexample :
    print_tree exC10Doc false = ["l1:0+V"] ∧
      (print_tree exC10Doc false).length ≠ exC10Doc.length ∧
      get_fold_trigger_state exC10Doc 0 = true ∧
      print_tree exC10Doc true = ["l1:0+V", "l2:0V"] :=
  ⟨by decide, by decide, by decide, by decide⟩

/-- C10 amended: with `print_blocks` set, `print_tree` produces exactly one
record per document line, in order, of the form
`l<N>:<level><trigger-char><visibility-char>` with `N` the 1-based line
number, the trigger character `+` for a collapsed trigger, `-` for an
expanded trigger and absent on non-trigger lines, and `V`/`I` for
visible/invisible; with the default `print_blocks=False` only trigger lines
are printed.  `print_tree` is a pure reader of the line store. -/
theorem c10_print_tree_amended :
    ∀ d : Doc, (print_tree d true).length = d.length ∧
      ∀ j l, d.get? j = some l →
        (print_tree d true).get? j =
          some ("l" ++ toString (j + 1) ++ ":" ++ toString l.foldLvl ++
            (if l.trigger then (if l.triggerState then "+" else "-") else "") ++
            (if l.visible then "V" else "I")) := by
  intro d
  have h := print_tree_go_spec d 0
  refine ⟨h.1, fun j l hj => ?_⟩
  have hrec := h.2 j l hj
  rw [print_tree]
  simpa [recordFor] using hrec

/-- C10 witness: the amended format theorem applied to the collapsed trigger
line of the two-line example document. -/
theorem c10_print_tree_witness :
    exC10Doc.get? 0 = some ⟨"a = 1".data, 0, true, true, true⟩ ∧
      (print_tree exC10Doc true).get? 0 = some "l1:0+V" := by
  refine ⟨by decide, ?_⟩
  have h := (c10_print_tree_amended exC10Doc).2 0
    ⟨"a = 1".data, 0, true, true, true⟩ (by decide)
  exact h.trans (by decide)

/-- C8, counterexample: processing the non-blank line 1 whose blank
predecessor carries the trigger flag and a collapsed state transfers only
the collapsed state: afterwards line 1 has `trigger_collapsed = true` but
its `is_trigger` flag is still false (the claim says the line becomes a
trigger), while both flags on the blank predecessor are cleared. -/
theorem c8_counterexample :
    is_fold_trigger exC8Doc 0 = true ∧ get_fold_trigger_state exC8Doc 0 = true ∧
      isBlankText (get_text exC8Doc 0) = true ∧
      isBlankText (get_text exC8Doc 1) = false ∧
      (process_line defaultLimit indentDetect exC8Doc 1).map
          (fun l => (l.trigger, l.triggerState)) = [(false, false), (false, true)] :=
  ⟨by decide, by decide, by decide, by decide, by decide⟩

/-- C8 amended: during `process_block` of a non-blank current line whose
immediate predecessor (not skipping blanks) is a blank line marked as a
trigger, the predecessor's collapsed state is copied onto the current line
and both the trigger flag and the collapsed state of the predecessor are
cleared; the trigger flag of the current line is not set by this step (it
keeps its previous value). -/
theorem c8_enter_amended :
    ∀ (limit : Nat) (detect : Option (List Char) → List Char → Nat)
      (d : Doc) (i : Nat),
      i < d.length → isBlankText (get_text d i) = false → 1 ≤ i →
      isBlankText (get_text d (i - 1)) = true →
      is_fold_trigger d (i - 1) = true →
      get_fold_trigger_state (process_line limit detect d i) i =
          get_fold_trigger_state d (i - 1) ∧
        is_fold_trigger (process_line limit detect d i) (i - 1) = false ∧
        get_fold_trigger_state (process_line limit detect d i) (i - 1) = false ∧
        is_fold_trigger (process_line limit detect d i) i = is_fold_trigger d i := by
  intro limit detect d i hi hnbi h1 hbp htp
  have hp : ∀ p, prevNonBlank (docTexts d) i = some p →
      isBlankText (get_text d p) = false ∧ p < i := by
    intro p hq
    obtain ⟨hlt, hnb, _⟩ := prevNonBlank_spec hq
    refine ⟨?_, hlt⟩
    rw [← get_text_docTexts]
    simpa using hnb
  obtain ⟨D, hD, htext, hstate, hvis, hlen, hbtrig, hgetrig⟩ :=
    process_block_eq_enterFix limit detect d i (prevNonBlank (docTexts d) i) hp
  rw [process_line, hD]
  have hbD : isBlankText (get_text D (i - 1)) = true := by rw [htext]; exact hbp
  have htD : is_fold_trigger D (i - 1) = true := by
    rw [hbtrig (i - 1) hbp]
    exact htp
  have hiD : i < D.length := by rw [hlen]; exact hi
  obtain ⟨hc1, hc2, hc3, hc4⟩ := applyEnterFix_fires h1 hbD htD hiD
  refine ⟨?_, hc2, hc3, ?_⟩
  · rw [hc1, hstate]
  · rw [hc4, hgetrig i (Nat.le_refl i)]

/-- C8 witness: the amended transfer theorem applied to the two-line example
with a collapsed blank trigger above a non-blank line. -/
theorem c8_enter_witness :
    (1 < exC8Doc.length ∧ isBlankText (get_text exC8Doc 1) = false ∧
      isBlankText (get_text exC8Doc 0) = true ∧
      is_fold_trigger exC8Doc 0 = true) ∧
      get_fold_trigger_state (process_line defaultLimit indentDetect exC8Doc 1) 1 =
          get_fold_trigger_state exC8Doc 0 ∧
        is_fold_trigger (process_line defaultLimit indentDetect exC8Doc 1) 0 = false ∧
        get_fold_trigger_state (process_line defaultLimit indentDetect exC8Doc 1) 0 = false ∧
        is_fold_trigger (process_line defaultLimit indentDetect exC8Doc 1) 1 =
          is_fold_trigger exC8Doc 1 :=
  ⟨⟨by decide, by decide, by decide, by decide⟩,
    c8_enter_amended defaultLimit indentDetect exC8Doc 1 (by decide) (by decide)
      (by decide) (by decide) (by decide)⟩

section HideLoopLemmas

theorem is_visible_of_le {d : Doc} {j : Nat} (h : d.length ≤ j) :
    is_visible d j = false := by
  unfold is_visible
  rw [List.get?_eq_none.mpr h]
  rfl

theorem hideLoop_text (e : Int) (fuel : Nat) :
    ∀ (d : Doc) (b j : Nat), get_text (FoldScope.hideLoop e fuel d b) j = get_text d j := by
  induction fuel with
  | zero => exact fun d b j => rfl
  | succ fuel ih =>
    intro d b j
    rw [FoldScope.hideLoop]
    split
    · rw [ih, get_text_set_visible]
    · rfl

theorem hideLoop_lvl (e : Int) (fuel : Nat) :
    ∀ (d : Doc) (b j : Nat),
      get_fold_lvl (FoldScope.hideLoop e fuel d b) j = get_fold_lvl d j := by
  induction fuel with
  | zero => exact fun d b j => rfl
  | succ fuel ih =>
    intro d b j
    rw [FoldScope.hideLoop]
    split
    · rw [ih, get_fold_lvl_set_visible]
    · rfl

theorem hideLoop_trigger (e : Int) (fuel : Nat) :
    ∀ (d : Doc) (b j : Nat),
      is_fold_trigger (FoldScope.hideLoop e fuel d b) j = is_fold_trigger d j := by
  induction fuel with
  | zero => exact fun d b j => rfl
  | succ fuel ih =>
    intro d b j
    rw [FoldScope.hideLoop]
    split
    · rw [ih, is_fold_trigger_set_visible]
    · rfl

theorem hideLoop_state (e : Int) (fuel : Nat) :
    ∀ (d : Doc) (b j : Nat),
      get_fold_trigger_state (FoldScope.hideLoop e fuel d b) j =
        get_fold_trigger_state d j := by
  induction fuel with
  | zero => exact fun d b j => rfl
  | succ fuel ih =>
    intro d b j
    rw [FoldScope.hideLoop]
    split
    · rw [ih, get_fold_trigger_state_set_visible]
    · rfl

theorem hideLoop_length (e : Int) (fuel : Nat) :
    ∀ (d : Doc) (b : Nat), (FoldScope.hideLoop e fuel d b).length = d.length := by
  induction fuel with
  | zero => exact fun d b => rfl
  | succ fuel ih =>
    intro d b
    rw [FoldScope.hideLoop]
    split
    · rw [ih, length_set_visible]
    · rfl

theorem hideLoop_visible (e : Int) (fuel : Nat) :
    ∀ (d : Doc) (b j : Nat), d.length ≤ b + fuel →
      is_visible (FoldScope.hideLoop e fuel d b) j =
        if b ≤ j ∧ (j : Int) ≤ e then false else is_visible d j := by
  induction fuel with
  | zero =>
    intro d b j h
    rw [FoldScope.hideLoop]
    by_cases hc : b ≤ j ∧ (j : Int) ≤ e
    · rw [if_pos hc]
      exact is_visible_of_le (by omega)
    · rw [if_neg hc]
  | succ fuel ih =>
    intro d b j h
    rw [FoldScope.hideLoop]
    split
    · rename_i hcond
      rw [ih (set_visible d b false) (b + 1) j (by simp; omega),
        is_visible_set_visible]
      split_ifs <;> first | rfl | (exfalso; omega)
    · rename_i hcond
      by_cases hc : b ≤ j ∧ (j : Int) ≤ e
      · rw [if_pos hc]
        rcases Nat.lt_or_ge j d.length with hl | hl
        · exfalso
          omega
        · exact is_visible_of_le hl
      · rw [if_neg hc]

end HideLoopLemmas

section CongruenceLemmas

theorem scanEnd_congr (refLvl : Int) :
    ∀ (l1 l2 : List Line), l1.map Line.foldLvl = l2.map Line.foldLvl →
      ∀ b last, FoldScope.scanEnd refLvl l1 b last = FoldScope.scanEnd refLvl l2 b last := by
  intro l1
  induction l1 with
  | nil =>
    intro l2 h b last
    cases l2 with
    | nil => rfl
    | cons x xs => exact absurd h (by simp)
  | cons x xs ih =>
    intro l2 h b last
    cases l2 with
    | nil => exact absurd h (by simp)
    | cons y ys =>
      simp at h
      rw [FoldScope.scanEnd, FoldScope.scanEnd, h.1]
      split
      · rw [ih ys h.2]
      · rfl

theorem trimBlanks_congr {d e : Doc} (htext : ∀ x, get_text d x = get_text e x) :
    ∀ j, FoldScope.trimBlanks d j = FoldScope.trimBlanks e j := by
  intro j
  induction j with
  | zero => rfl
  | succ j ih =>
    rw [FoldScope.trimBlanks, FoldScope.trimBlanks, htext (j + 1)]
    split
    · exact ih
    · rfl

theorem drop_map_congr {d e : Doc} (hlen : d.length = e.length)
    (hmap : ∀ j, (d.get? j).map Line.foldLvl = (e.get? j).map Line.foldLvl)
    (m : Nat) :
    (d.drop m).map Line.foldLvl = (e.drop m).map Line.foldLvl := by
  apply List.ext_getElem?
  intro t
  rw [List.getElem?_map, List.getElem?_map, List.getElem?_drop, List.getElem?_drop]
  have := hmap (m + t)
  rw [List.get?_eq_getElem?, List.get?_eq_getElem?] at this
  exact this

theorem lvl_map_congr {d e : Doc} (hlen : d.length = e.length)
    (hlvl : ∀ j, get_fold_lvl d j = get_fold_lvl e j) :
    ∀ j, (d.get? j).map Line.foldLvl = (e.get? j).map Line.foldLvl := by
  intro j
  by_cases hj : j < d.length
  · rcases hd : d.get? j with _ | x
    · exfalso
      have := List.get?_eq_none.mp hd
      omega
    · rcases he : e.get? j with _ | y
      · exfalso
        have := List.get?_eq_none.mp he
        omega
      · have h1 := hlvl j
        unfold get_fold_lvl at h1
        rw [hd, he] at h1
        simpa using h1
  · rw [List.get?_eq_none.mpr (by omega), List.get?_eq_none.mpr (by omega)]

theorem rangeScan_congr {d e : Doc} (hlen : d.length = e.length)
    (hlvl : ∀ j, get_fold_lvl d j = get_fold_lvl e j) (i : Nat) :
    rangeScan d i = rangeScan e i := by
  unfold rangeScan
  rw [hlvl i, hlvl (i + 1)]
  exact scanEnd_congr _ _ _ (drop_map_congr hlen (lvl_map_congr hlen hlvl) (i + 1)) _ _

theorem get_range_congr {d e : Doc} (hlen : d.length = e.length)
    (htext : ∀ j, get_text d j = get_text e j)
    (hlvl : ∀ j, get_fold_lvl d j = get_fold_lvl e j) (i : Nat) (ig : Bool) :
    FoldScope.get_range d i ig = FoldScope.get_range e i ig := by
  by_cases hv : i + 1 < d.length
  · rw [get_range_valid ig hv, get_range_valid ig (by omega : i + 1 < e.length),
      rangeScan_congr hlen hlvl i, trimBlanks_congr htext]
  · rw [FoldScope.get_range, FoldScope.get_range, if_neg hv,
      if_neg (show ¬(i + 1 < e.length) by omega), hlen, trimBlanks_congr htext]

end CongruenceLemmas

/-- C6: for every trigger line's scope, `fold` sets the trigger's collapsed
flag and makes exactly the lines strictly inside the computed range
invisible; the trigger line itself stays visible and no text, fold level or
trigger flag changes anywhere.  On a trigger sitting on the last line the
range ends at or before the trigger, so nothing is hidden and only the
collapsed flag changes — the single-line instance is included concretely.
In particular, folding the scenario-1 scope at line 0 hides lines 1 and 2,
leaves line 0 visible, and `collapsed` then returns true. -/
theorem c6_fold_effect :
    (∀ (d : Doc) (i : Nat), is_fold_trigger d i = true →
      ∃ e : Int, FoldScope.get_range d i true = ((i : Int), e) ∧
        (∀ j, get_text (FoldScope.fold d i) j = get_text d j) ∧
        (∀ j, get_fold_lvl (FoldScope.fold d i) j = get_fold_lvl d j) ∧
        (∀ j, is_fold_trigger (FoldScope.fold d i) j = is_fold_trigger d j) ∧
        (∀ j, get_fold_trigger_state (FoldScope.fold d i) j =
          if j = i then true else get_fold_trigger_state d j) ∧
        (∀ j, is_visible (FoldScope.fold d i) j =
          if i < j ∧ (j : Int) ≤ e then false else is_visible d j)) ∧
      scen1Folded.map Line.visible = [true, false, false, true] ∧
      FoldScope.collapsed scen1Folded 0 = true ∧
      FoldScope.fold exC6Doc 0 = [⟨"while True:".data, 0, true, true, true⟩] := by
  refine ⟨?_, by decide, by decide, by decide⟩
  intro d i htrig
  have hi : i < d.length := trigger_lt_length htrig
  by_cases hlen : i + 1 < d.length
  · have hge := rangeScan_ge d i
    have hr := get_range_valid true hlen
    rw [if_pos (show (true && (rangeScan d i != 0)) = true by
      simp [bne_iff_ne]; omega)] at hr
    have hfold : FoldScope.fold d i =
        FoldScope.hideLoop ((FoldScope.trimBlanks d (rangeScan d i) : Nat) : Int)
          d.length (set_fold_trigger_state d i true) (i + 1) := by
      rw [FoldScope.fold, hr]
    refine ⟨(FoldScope.trimBlanks d (rangeScan d i) : Int), hr, ?_, ?_, ?_, ?_, ?_⟩
    · intro j
      rw [hfold, hideLoop_text, get_text_set_fold_trigger_state]
    · intro j
      rw [hfold, hideLoop_lvl, get_fold_lvl_set_fold_trigger_state]
    · intro j
      rw [hfold, hideLoop_trigger, is_fold_trigger_set_fold_trigger_state]
    · intro j
      rw [hfold, hideLoop_state, get_fold_trigger_state_set_fold_trigger_state]
      by_cases hj : j = i
      · subst hj
        rw [if_pos ⟨rfl, by omega⟩, if_pos rfl]
      · rw [if_neg (fun hc => hj hc.1.symm), if_neg hj]
    · intro j
      rw [hfold, hideLoop_visible _ _ _ _ _ (by simp),
        is_visible_set_fold_trigger_state]
      split_ifs <;> first | rfl | (exfalso; omega)
  · have hr := get_range_last_true hlen hi
    have hfold := fold_last hlen
    have htle := trimBlanks_le d (d.length - 1)
    refine ⟨(FoldScope.trimBlanks d (d.length - 1) : Int), hr, ?_, ?_, ?_, ?_, ?_⟩
    · intro j
      rw [hfold, get_text_set_fold_trigger_state]
    · intro j
      rw [hfold, get_fold_lvl_set_fold_trigger_state]
    · intro j
      rw [hfold, is_fold_trigger_set_fold_trigger_state]
    · intro j
      rw [hfold, get_fold_trigger_state_set_fold_trigger_state]
      split_ifs <;> first | rfl | (exfalso; omega)
    · intro j
      have hno : ¬ (i < j ∧
          (j : Int) ≤ ((FoldScope.trimBlanks d (d.length - 1) : Nat) : Int)) := by
        intro hc
        have h1 := hc.1
        have h2 := hc.2
        omega
      rw [hfold, is_visible_set_fold_trigger_state, if_neg hno]

/-- C6 witness: the fold-effect theorem applied to the scenario-1 document
at its trigger line 0. -/
theorem c6_fold_witness :
    is_fold_trigger scen1Doc 0 = true ∧
      ∃ e : Int, FoldScope.get_range scen1Doc 0 true = ((0 : Int), e) ∧
        (∀ j, get_text (FoldScope.fold scen1Doc 0) j = get_text scen1Doc j) ∧
        (∀ j, get_fold_lvl (FoldScope.fold scen1Doc 0) j =
          get_fold_lvl scen1Doc j) ∧
        (∀ j, is_fold_trigger (FoldScope.fold scen1Doc 0) j =
          is_fold_trigger scen1Doc j) ∧
        (∀ j, get_fold_trigger_state (FoldScope.fold scen1Doc 0) j =
          if j = 0 then true else get_fold_trigger_state scen1Doc j) ∧
        (∀ j, is_visible (FoldScope.fold scen1Doc 0) j =
          if 0 < j ∧ (j : Int) ≤ e then false else is_visible scen1Doc j) :=
  ⟨by decide, c6_fold_effect.1 scen1Doc 0 (by decide)⟩

section FoldUnfoldLemmas

theorem map_visfalse_idem (o : Option Line) :
    (o.map (fun l => { l with visible := false })).map
        (fun l => { l with visible := false }) =
      o.map (fun l => { l with visible := false }) := by
  cases o <;> rfl

theorem map_statetrue_idem (o : Option Line) :
    (o.map (fun l => { l with triggerState := true })).map
        (fun l => { l with triggerState := true }) =
      o.map (fun l => { l with triggerState := true }) := by
  cases o <;> rfl

theorem hideLoop_get? (e : Int) (fuel : Nat) :
    ∀ (d : Doc) (b j : Nat), d.length ≤ b + fuel →
      (FoldScope.hideLoop e fuel d b).get? j =
        if b ≤ j ∧ (j : Int) ≤ e then
          (d.get? j).map (fun l => { l with visible := false })
        else d.get? j := by
  induction fuel with
  | zero =>
    intro d b j h
    rw [FoldScope.hideLoop]
    by_cases hc : b ≤ j ∧ (j : Int) ≤ e
    · rw [if_pos hc, List.get?_eq_none.mpr (by omega)]
      rfl
    · rw [if_neg hc]
  | succ fuel ih =>
    intro d b j h
    rw [FoldScope.hideLoop]
    split
    · rename_i hcond
      rw [ih (set_visible d b false) (b + 1) j (by simp; omega)]
      unfold set_visible
      rw [modifyAt_get?]
      split_ifs <;> first | rfl | (exfalso; omega)
    · rename_i hcond
      by_cases hc : b ≤ j ∧ (j : Int) ≤ e
      · rw [if_pos hc, List.get?_eq_none.mpr (by omega)]
        rfl
      · rw [if_neg hc]

theorem foldl_setvis_text (bs : List Nat) :
    ∀ (d : Doc) (j : Nat),
      get_text (bs.foldl (fun a b => set_visible a b true) d) j = get_text d j := by
  induction bs with
  | nil => exact fun d j => rfl
  | cons b bs ih =>
    intro d j
    rw [List.foldl_cons, ih, get_text_set_visible]

theorem foldl_setvis_lvl (bs : List Nat) :
    ∀ (d : Doc) (j : Nat),
      get_fold_lvl (bs.foldl (fun a b => set_visible a b true) d) j =
        get_fold_lvl d j := by
  induction bs with
  | nil => exact fun d j => rfl
  | cons b bs ih =>
    intro d j
    rw [List.foldl_cons, ih, get_fold_lvl_set_visible]

theorem foldl_setvis_trigger (bs : List Nat) :
    ∀ (d : Doc) (j : Nat),
      is_fold_trigger (bs.foldl (fun a b => set_visible a b true) d) j =
        is_fold_trigger d j := by
  induction bs with
  | nil => exact fun d j => rfl
  | cons b bs ih =>
    intro d j
    rw [List.foldl_cons, ih, is_fold_trigger_set_visible]

theorem foldl_setvis_state (bs : List Nat) :
    ∀ (d : Doc) (j : Nat),
      get_fold_trigger_state (bs.foldl (fun a b => set_visible a b true) d) j =
        get_fold_trigger_state d j := by
  induction bs with
  | nil => exact fun d j => rfl
  | cons b bs ih =>
    intro d j
    rw [List.foldl_cons, ih, get_fold_trigger_state_set_visible]

theorem foldl_setvis_length (bs : List Nat) :
    ∀ d : Doc, (bs.foldl (fun a b => set_visible a b true) d).length = d.length := by
  induction bs with
  | nil => exact fun d => rfl
  | cons b bs ih =>
    intro d
    rw [List.foldl_cons, ih, length_set_visible]

theorem foldl_setvis_vis (bs : List Nat) :
    ∀ (d : Doc) (j : Nat),
      is_visible (bs.foldl (fun a b => set_visible a b true) d) j =
        if j ∈ bs ∧ j < d.length then true else is_visible d j := by
  induction bs with
  | nil =>
    intro d j
    rw [if_neg (by simp)]
    rfl
  | cons b bs ih =>
    intro d j
    rw [List.foldl_cons, ih, is_visible_set_visible, length_set_visible]
    by_cases h1 : j ∈ bs ∧ j < d.length
    · rw [if_pos h1, if_pos ⟨by simp [h1.1], h1.2⟩]
    · by_cases h2 : b = j ∧ j < d.length
      · rw [if_neg h1, if_pos h2, if_pos ⟨by simp [h2.1.symm], h2.2⟩]
      · rw [if_neg h1, if_neg h2, if_neg ?_]
        intro hc
        rcases List.mem_cons.mp hc.1 with hx | hx
        · exact h2 ⟨hx.symm, hc.2⟩
        · exact h1 ⟨hx, hc.2⟩

theorem collectBlocks_mem_aux (slvl : Nat) (e : Int) (w : Bool) :
    ∀ (rest : List Line) (d : Doc) (b : Nat), rest = d.drop b →
      ∀ c, c ∈ FoldScope.collectBlocks slvl e w rest b ↔
        (b ≤ c ∧ (c : Int) ≤ e ∧ c < d.length ∧
          get_fold_lvl d c = slvl ∧ is_fold_trigger d c = w) := by
  intro rest
  induction rest with
  | nil =>
    intro d b hrest c
    have hlen : d.length ≤ b := List.drop_eq_nil_iff.mp hrest.symm
    rw [FoldScope.collectBlocks]
    simp
    intro h1 h2 h3
    omega
  | cons x xs ih =>
    intro d b hrest c
    have hxb : d.get? b = some x := by
      have h0 : (d.drop b)[0]? = d[b + 0]? := List.getElem?_drop d b 0
      rw [← hrest] at h0
      rw [List.get?_eq_getElem?]
      simpa using h0.symm
    have hxs : xs = d.drop (b + 1) := by
      have h1 : (d.drop b).drop 1 = d.drop (b + 1) := by
        rw [List.drop_drop]
      rw [← hrest] at h1
      simpa using h1
    have hblen : b < d.length := by
      by_contra hc
      rw [List.get?_eq_none.mpr (by omega)] at hxb
      exact Option.noConfusion hxb
    have hlvlb : get_fold_lvl d b = x.foldLvl := by
      unfold get_fold_lvl
      rw [hxb]
      rfl
    have htrigb : is_fold_trigger d b = x.trigger := by
      unfold is_fold_trigger
      rw [hxb]
      rfl
    rw [FoldScope.collectBlocks]
    by_cases he : (b : Int) ≤ e
    · rw [if_pos he, List.mem_append, ih d (b + 1) hxs c]
      constructor
      · intro h
        rcases h with h | h
        · have hc : c = b := by
            by_cases hcond : x.foldLvl = slvl ∧ x.trigger = w
            · rw [if_pos hcond] at h
              simpa using h
            · rw [if_neg hcond] at h
              simp at h
          subst hc
          have hcond : x.foldLvl = slvl ∧ x.trigger = w := by
            by_contra hcc
            rw [if_neg hcc] at h
            simp at h
          exact ⟨Nat.le_refl c, he, hblen, by rw [hlvlb, hcond.1],
            by rw [htrigb, hcond.2]⟩
        · obtain ⟨g1, g2, g3, g4, g5⟩ := h
          exact ⟨by omega, g2, g3, g4, g5⟩
      · intro ⟨g1, g2, g3, g4, g5⟩
        rcases Nat.eq_or_lt_of_le g1 with hc | hc
        · left
          subst hc
          rw [if_pos ⟨by rw [← hlvlb, g4], by rw [← htrigb, g5]⟩]
          simp
        · right
          exact ⟨hc, g2, g3, g4, g5⟩
    · rw [if_neg he]
      simp
      intro h1 h2
      omega

theorem collectBlocks_mem (slvl : Nat) (e : Int) (w : Bool) (d : Doc) (b c : Nat) :
    c ∈ FoldScope.collectBlocks slvl e w (d.drop b) b ↔
      (b ≤ c ∧ (c : Int) ≤ e ∧ c < d.length ∧
        get_fold_lvl d c = slvl ∧ is_fold_trigger d c = w) :=
  collectBlocks_mem_aux slvl e w (d.drop b) d b rfl c

end FoldUnfoldLemmas

section IdempotenceLemmas

theorem set_state_get? (dd : Doc) (i : Nat) (b : Bool) (j : Nat) :
    (set_fold_trigger_state dd i b).get? j =
      if i = j then (dd.get? j).map (fun l => { l with triggerState := b })
      else dd.get? j := by
  unfold set_fold_trigger_state
  rw [modifyAt_get?]

theorem fold_idem (d : Doc) (i : Nat) :
    FoldScope.fold (FoldScope.fold d i) i = FoldScope.fold d i := by
  by_cases hlen : i + 1 < d.length
  · rw [fold_eq hlen]
    set F := FoldScope.hideLoop (foldEnd d i) d.length
      (set_fold_trigger_state d i true) (i + 1) with hFdef
    have hFlen : F.length = d.length := by
      rw [hFdef, hideLoop_length, length_set_fold_trigger_state]
    have hFtext : ∀ j, get_text F j = get_text d j := fun j => by
      rw [hFdef, hideLoop_text, get_text_set_fold_trigger_state]
    have hFlvl : ∀ j, get_fold_lvl F j = get_fold_lvl d j := fun j => by
      rw [hFdef, hideLoop_lvl, get_fold_lvl_set_fold_trigger_state]
    have hscan : rangeScan F i = rangeScan d i := rangeScan_congr hFlen hFlvl i
    have hE : foldEnd F i = foldEnd d i := by
      unfold foldEnd
      rw [hscan, trimBlanks_congr hFtext]
    have hFget : ∀ j, F.get? j =
        if i + 1 ≤ j ∧ (j : Int) ≤ foldEnd d i then
          ((set_fold_trigger_state d i true).get? j).map
            (fun l => { l with visible := false })
        else (set_fold_trigger_state d i true).get? j := fun j => by
      rw [hFdef]
      exact hideLoop_get? _ _ _ _ _ (by simp)
    show FoldScope.fold F i = F
    rw [fold_eq (show i + 1 < F.length by omega), hE, hFlen]
    apply List.ext
    intro j
    have hL := hideLoop_get? (foldEnd d i) d.length
      (set_fold_trigger_state F i true) (i + 1) j (by simp; omega)
    rw [hL, set_state_get?, hFget j, set_state_get?]
    split_ifs <;>
      first
        | rfl
        | (exfalso; omega)
        | exact map_visfalse_idem _
        | exact map_statetrue_idem _
  · rw [fold_last hlen,
      fold_last (show ¬ i + 1 < (set_fold_trigger_state d i true).length by
        rw [length_set_fold_trigger_state]; exact hlen)]
    apply List.ext
    intro j
    rw [set_state_get?, set_state_get?]
    split_ifs
    · exact map_statetrue_idem _
    · rfl

end IdempotenceLemmas

section RestoreLemmas

theorem fold_unfold_restore {d : Doc} {i : Nat}
    (hlen : i + 1 < d.length) (hvi : is_visible d i = true)
    (hbody : ∀ j, i < j → j ≤ rangeScan d i →
      is_fold_trigger d j = false ∧ get_fold_lvl d j = get_fold_lvl d (i + 1) ∧
        is_visible d j = true) :
    ∀ j, is_visible (FoldScope.unfold (FoldScope.fold d i) i) j =
      is_visible d j := by
  have hge := rangeScan_ge d i
  have hsl := rangeScan_lt hlen
  have htle : FoldScope.trimBlanks d (rangeScan d i) ≤ rangeScan d i :=
    trimBlanks_le d _
  set F := FoldScope.hideLoop (foldEnd d i) d.length
    (set_fold_trigger_state d i true) (i + 1) with hFdef
  have hfold : FoldScope.fold d i = F := fold_eq hlen
  have hFlen : F.length = d.length := by
    rw [hFdef, hideLoop_length, length_set_fold_trigger_state]
  have hFtext : ∀ j, get_text F j = get_text d j := fun j => by
    rw [hFdef, hideLoop_text, get_text_set_fold_trigger_state]
  have hFlvl : ∀ j, get_fold_lvl F j = get_fold_lvl d j := fun j => by
    rw [hFdef, hideLoop_lvl, get_fold_lvl_set_fold_trigger_state]
  have hFtrig : ∀ j, is_fold_trigger F j = is_fold_trigger d j := fun j => by
    rw [hFdef, hideLoop_trigger, is_fold_trigger_set_fold_trigger_state]
  have hFvis : ∀ j, is_visible F j =
      if i + 1 ≤ j ∧ (j : Int) ≤ foldEnd d i then false else is_visible d j :=
    fun j => by
      rw [hFdef, hideLoop_visible _ _ _ _ _ (by simp),
        is_visible_set_fold_trigger_state]
  set D0 := set_visible F i true with hD0def
  set D1 := set_fold_trigger_state D0 i false with hD1def
  have hD1len : D1.length = d.length := by
    rw [hD1def, length_set_fold_trigger_state, hD0def, length_set_visible, hFlen]
  have hD1text : ∀ j, get_text D1 j = get_text d j := fun j => by
    rw [hD1def, get_text_set_fold_trigger_state, hD0def, get_text_set_visible,
      hFtext]
  have hD1lvl : ∀ j, get_fold_lvl D1 j = get_fold_lvl d j := fun j => by
    rw [hD1def, get_fold_lvl_set_fold_trigger_state, hD0def,
      get_fold_lvl_set_visible, hFlvl]
  have hD1trig : ∀ j, is_fold_trigger D1 j = is_fold_trigger d j := fun j => by
    rw [hD1def, is_fold_trigger_set_fold_trigger_state, hD0def,
      is_fold_trigger_set_visible, hFtrig]
  have hD1vis : ∀ j, is_visible D1 j =
      if i = j ∧ j < F.length then true else is_visible F j := fun j => by
    rw [hD1def, is_visible_set_fold_trigger_state, hD0def, is_visible_set_visible]
  have hrangeF : FoldScope.get_range D1 i false =
      ((i : Int), (rangeScan d i : Int)) := by
    rw [get_range_congr hD1len hD1text hD1lvl, get_range_valid false hlen,
      if_neg (by simp)]
  set BS := FoldScope.collectBlocks (FoldScope.scope_level D1 i)
    ((rangeScan d i : Nat) : Int) false (D1.drop (i + 1)) (i + 1) with hBSdef
  have hbl : FoldScope.blocksList D1 i false = BS := by
    rw [FoldScope.blocksList, hrangeF]
  have hBSmem : ∀ c, c ∈ BS ↔
      (i + 1 ≤ c ∧ (c : Int) ≤ ((rangeScan d i : Nat) : Int) ∧ c < D1.length ∧
        get_fold_lvl D1 c = FoldScope.scope_level D1 i ∧
        is_fold_trigger D1 c = false) := fun c => by
    rw [hBSdef]
    exact collectBlocks_mem _ _ _ D1 (i + 1) c
  set D2 := BS.foldl (fun acc b => set_visible acc b true) D1 with hD2def
  have hD2len : D2.length = d.length := by
    rw [hD2def, foldl_setvis_length, hD1len]
  have hD2text : ∀ j, get_text D2 j = get_text d j := fun j => by
    rw [hD2def, foldl_setvis_text, hD1text]
  have hD2lvl : ∀ j, get_fold_lvl D2 j = get_fold_lvl d j := fun j => by
    rw [hD2def, foldl_setvis_lvl, hD1lvl]
  have hD2trig : ∀ j, is_fold_trigger D2 j = is_fold_trigger d j := fun j => by
    rw [hD2def, foldl_setvis_trigger, hD1trig]
  have hrangeT : FoldScope.get_range D2 i true =
      ((i : Int), foldEnd d i) := by
    rw [get_range_congr hD2len hD2text hD2lvl, get_range_valid true hlen,
      if_pos (show (true && (rangeScan d i != 0)) = true by
        simp [bne_iff_ne]; omega)]
    rfl
  have hkids : FoldScope.collectBlocks (FoldScope.scope_level D2 i)
      (foldEnd d i) true (D2.drop (i + 1)) (i + 1) = [] := by
    rw [List.eq_nil_iff_forall_not_mem]
    intro c hc
    obtain ⟨g1, g2, g3, g4, g5⟩ :=
      (collectBlocks_mem (FoldScope.scope_level D2 i) (foldEnd d i) true
        D2 (i + 1) c).mp hc
    have hcle : c ≤ rangeScan d i := by
      unfold foldEnd at g2
      omega
    have hfalse : is_fold_trigger d c = false :=
      (hbody c (by omega) hcle).1
    rw [hD2trig c, hfalse] at g5
    exact Bool.noConfusion g5
  have hcl : FoldScope.childList D2 i = [] := by
    rw [FoldScope.childList, hrangeT]
    show FoldScope.collectBlocks (FoldScope.scope_level D2 i)
      (foldEnd d i) true (D2.drop (i + 1)) (i + 1) = []
    rw [hkids]
  have hunfold : FoldScope.unfold F i = D2 := by
    have e1 : FoldScope.unfold F i = FoldScope.unfoldFuel (d.length + 1) F i := by
      rw [FoldScope.unfold, hFlen]
    rw [e1, FoldScope.unfoldFuel]
    show FoldScope.kidsLoop (fun dd c => FoldScope.unfoldFuel d.length dd c)
        ((FoldScope.blocksList D1 i false).foldl
          (fun acc b => set_visible acc b true) D1)
        (FoldScope.childList
          ((FoldScope.blocksList D1 i false).foldl
            (fun acc b => set_visible acc b true) D1) i) = D2
    rw [hbl]
    show FoldScope.kidsLoop (fun dd c => FoldScope.unfoldFuel d.length dd c)
        D2 (FoldScope.childList D2 i) = D2
    rw [hcl]
    rfl
  intro j
  rw [hfold, hunfold]
  have hvD2 : is_visible D2 j =
      if j ∈ BS ∧ j < D1.length then true else is_visible D1 j := by
    rw [hD2def]
    exact foldl_setvis_vis BS D1 j
  rw [hvD2]
  by_cases hj0 : j = i
  · subst hj0
    rw [if_neg (fun hc => by have := (hBSmem j).mp hc.1; omega),
      hD1vis j, if_pos ⟨rfl, by omega⟩]
    exact hvi.symm
  · by_cases hjb : i < j ∧ j ≤ rangeScan d i
    · have hmem : j ∈ BS := by
        rw [hBSmem j]
        refine ⟨by omega, by exact_mod_cast hjb.2, by omega, ?_, ?_⟩
        · show get_fold_lvl D1 j = get_fold_lvl D1 (i + 1)
          rw [hD1lvl, hD1lvl]
          exact (hbody j hjb.1 hjb.2).2.1
        · rw [hD1trig]
          exact (hbody j hjb.1 hjb.2).1
      rw [if_pos ⟨hmem, by omega⟩]
      exact ((hbody j hjb.1 hjb.2).2.2).symm
    · have hnmem : j ∉ BS := fun hc => by
        have hm := (hBSmem j).mp hc
        exact hjb ⟨by omega, by exact_mod_cast hm.2.1⟩
      rw [if_neg (fun hc => hnmem hc.1), hD1vis j,
        if_neg (fun hc => hj0 hc.1.symm), hFvis j, if_neg ?_]
      intro hc
      apply hjb
      refine ⟨by omega, ?_⟩
      have hcf : (j : Int) ≤ foldEnd d i := hc.2
      unfold foldEnd at hcf
      omega

theorem fold_unfold_restore_last {d : Doc} {i : Nat}
    (hlen : ¬ i + 1 < d.length) (hvi : is_visible d i = true) :
    ∀ j, is_visible (FoldScope.unfold (FoldScope.fold d i) i) j =
      is_visible d j := by
  have hfold : FoldScope.fold d i = set_fold_trigger_state d i true :=
    fold_last hlen
  set F := set_fold_trigger_state d i true with hFdef
  have hFlen : F.length = d.length := by
    rw [hFdef, length_set_fold_trigger_state]
  set D0 := set_visible F i true with hD0def
  set D1 := set_fold_trigger_state D0 i false with hD1def
  have hD1len : D1.length = d.length := by
    rw [hD1def, length_set_fold_trigger_state, hD0def, length_set_visible, hFlen]
  have hdrop : D1.drop (i + 1) = [] := by
    rw [List.drop_eq_nil_iff]
    omega
  have hbl : FoldScope.blocksList D1 i false = [] := by
    rw [FoldScope.blocksList, hdrop]
    rfl
  have hcl : FoldScope.childList D1 i = [] := by
    rw [FoldScope.childList, hdrop]
    rfl
  have hunfold : FoldScope.unfold F i = D1 := by
    have e1 : FoldScope.unfold F i = FoldScope.unfoldFuel (d.length + 1) F i := by
      rw [FoldScope.unfold, hFlen]
    rw [e1, FoldScope.unfoldFuel]
    show FoldScope.kidsLoop (fun dd c => FoldScope.unfoldFuel d.length dd c)
        ((FoldScope.blocksList D1 i false).foldl
          (fun acc b => set_visible acc b true) D1)
        (FoldScope.childList
          ((FoldScope.blocksList D1 i false).foldl
            (fun acc b => set_visible acc b true) D1) i) = D1
    rw [hbl]
    show FoldScope.kidsLoop (fun dd c => FoldScope.unfoldFuel d.length dd c)
        D1 (FoldScope.childList D1 i) = D1
    rw [hcl]
    rfl
  intro j
  rw [hfold, hunfold, hD1def, is_visible_set_fold_trigger_state, hD0def,
    is_visible_set_visible, hFdef, is_visible_set_fold_trigger_state,
    length_set_fold_trigger_state]
  by_cases hj : i = j ∧ j < d.length
  · rw [if_pos hj, ← hj.1]
    exact hvi.symm
  · rw [if_neg hj]

end RestoreLemmas

/-- C5, counterexample: `unfold` after `fold` does not restore the prior
per-line visibility in general, even for a scope with no nested collapsed
child scopes.  First, a scope (line 1 of the first document) with no child
scopes at all whose body was already invisible before the fold (it sits
inside the collapsed scope of line 0): visibility before is
`[true, false, false]`, after `fold` then `unfold` it is
`[true, true, true]`.  Second, a fully visible, fully expanded scope (line 0
of the second document, no trigger flag and no collapsed state anywhere
else) whose body contains a line two levels below the trigger with no child
trigger above it: `unfold` reveals only the trigger and the scope-level
line, so `[true, true, true]` becomes `[true, true, false]`. -/
theorem c5_counterexample :
    (is_fold_trigger exC5Doc 1 = true ∧
      FoldScope.childList exC5Doc 1 = [] ∧
      exC5Doc.map Line.visible = [true, false, false] ∧
      (FoldScope.unfold (FoldScope.fold exC5Doc 1) 1).map Line.visible =
        [true, true, true]) ∧
      (is_fold_trigger exC5bDoc 0 = true ∧
        exC5bDoc.map Line.trigger = [true, false, false] ∧
        exC5bDoc.map Line.triggerState = [false, false, false] ∧
        exC5bDoc.map Line.visible = [true, true, true] ∧
        (FoldScope.unfold (FoldScope.fold exC5bDoc 0) 0).map Line.visible =
          [true, true, false]) :=
  ⟨⟨by decide, by decide, by decide, by decide⟩,
    ⟨by decide, by decide, by decide, by decide, by decide⟩⟩

/-- C5 amended: `fold` is idempotent — a second `fold` right after a first
one changes nothing beyond the first, for every line of every document
(including a trigger on the last line, where each call only re-sets the
collapsed flag).  And `unfold` directly after `fold` restores exactly the
prior per-line visibility provided the trigger and every line of its
scanned range were visible before the fold and every line strictly inside
the range is a direct scope line (fold level equal to the scope level, no
trigger flag); a trigger on the last line, whose scanned range is empty, is
covered.  The counterexamples show both provisos are needed: restoration
fails for a body that was hidden inside a collapsed ancestor, and for a
body line nested below the scope level with no child trigger above it —
absence of nested collapsed children alone is not sufficient. -/
theorem c5_fold_unfold_amended :
    (∀ (d : Doc) (i : Nat),
      FoldScope.fold (FoldScope.fold d i) i = FoldScope.fold d i) ∧
      (∀ (d : Doc) (i : Nat),
        is_fold_trigger d i = true → is_visible d i = true →
        (∀ j, i < j → j < d.length → j ≤ rangeScan d i →
          is_fold_trigger d j = false ∧
            get_fold_lvl d j = get_fold_lvl d (i + 1) ∧
            is_visible d j = true) →
        ∀ j, is_visible (FoldScope.unfold (FoldScope.fold d i) i) j =
          is_visible d j) := by
  refine ⟨fold_idem, ?_⟩
  intro d i htrig hvi hbody
  by_cases hlen : i + 1 < d.length
  · exact fold_unfold_restore hlen hvi
      (fun j h1 h2 => hbody j h1 (by have := rangeScan_lt hlen; omega) h2)
  · exact fold_unfold_restore_last hlen hvi

/-- C5 witness: the amended restoration theorem applied to the scenario-1
document at its trigger line 0 (body lines 1 and 2, all visible). -/
theorem c5_fold_unfold_witness :
    (is_fold_trigger scen1Doc 0 = true ∧ is_visible scen1Doc 0 = true ∧
      rangeScan scen1Doc 0 = 2) ∧
      ∀ j, is_visible (FoldScope.unfold (FoldScope.fold scen1Doc 0) 0) j =
        is_visible scen1Doc j := by
  have hr : rangeScan scen1Doc 0 = 2 := by decide
  refine ⟨⟨by decide, by decide, hr⟩, ?_⟩
  exact c5_fold_unfold_amended.2 scen1Doc 0 (by decide) (by decide)
    (fun j hj1 hj2 hj3 => by
      rw [hr] at hj3
      interval_cases j <;> exact ⟨by decide, by decide, by decide⟩)

section ProcessBlockCases

theorem applyWalk_not_lt {fl0 pl : Nat} {d : Doc} {i : Nat} (h : ¬ pl < fl0) :
    applyWalk fl0 pl d i = d := by
  unfold applyWalk
  rw [if_neg h]

theorem applyEnterFix_skip {doc : Doc} {i : Nat}
    (h : ¬ (1 ≤ i ∧ isBlankText (get_text doc (i - 1)) = true ∧
      is_fold_trigger doc (i - 1) = true)) :
    applyEnterFix doc i = doc := by
  unfold applyEnterFix
  rw [if_neg h]

theorem clampLvl_self (pl : Nat) : clampLvl pl pl = pl := by
  unfold clampLvl
  split <;> omega

theorem process_block_blank (limit : Nat)
    (detect : Option (List Char) → List Char → Nat) (d : Doc) (k : Nat)
    (pnb : Option Nat) (hb : isBlankText (get_text d k) = true)
    (hskip : ¬ (1 ≤ k ∧ isBlankText (get_text d (k - 1)) = true ∧
      is_fold_trigger d (k - 1) = true)) :
    process_block limit detect d k pnb =
      set_fold_lvl d k (match pnb with
        | none => 0
        | some p => get_fold_lvl d p) := by
  unfold process_block
  simp only [hb, if_true, eq_self_iff_true]
  rw [applyWalk_not_lt (Nat.lt_irrefl _), clampLvl_self]
  apply applyEnterFix_skip
  rw [get_text_set_fold_lvl, is_fold_trigger_set_fold_lvl]
  exact hskip

end ProcessBlockCases

section ProcessBlockNonBlank

theorem applyWalk_lt_eq {fl0 pl : Nat} {d : Doc} {i p : Nat} (hlt : pl < fl0)
    (hstop : (walkBack fl0 d i).2 = some p) :
    applyWalk fl0 pl d i = set_fold_trigger (walkBack fl0 d i).1 p true := by
  unfold applyWalk
  rw [if_pos hlt]
  rcases hw : walkBack fl0 d i with ⟨W, s⟩
  rw [hw] at hstop
  simp at hstop
  subst hstop
  rfl

theorem applyWalk_none_eq {fl0 pl : Nat} {d : Doc} {i : Nat} (hlt : pl < fl0)
    (hstop : (walkBack fl0 d i).2 = none) :
    applyWalk fl0 pl d i = (walkBack fl0 d i).1 := by
  unfold applyWalk
  rw [if_pos hlt]
  rcases hw : walkBack fl0 d i with ⟨W, s⟩
  rw [hw] at hstop
  simp at hstop
  subst hstop
  rfl

theorem process_block_nonblank_some (limit : Nat)
    (detect : Option (List Char) → List Char → Nat) (d : Doc) (k p C : Nat)
    (hC : C = (if limit < detect (some (get_text d p)) (get_text d k) then limit
      else detect (some (get_text d p)) (get_text d k)))
    (hb : isBlankText (get_text d k) = false)
    (hplt : p < k) (hpnb : isBlankText (get_text d p) = false)
    (hgap : ∀ j, p < j → j < k → isBlankText (get_text d j) = true)
    (hklen : k < d.length)
    (htriggap : ∀ j, p < j → j < k → is_fold_trigger d j = false) :
    (∀ j, get_text (process_block limit detect d k (some p)) j = get_text d j) ∧
      (process_block limit detect d k (some p)).length = d.length ∧
      (∀ j, get_fold_trigger_state (process_block limit detect d k (some p)) j =
        get_fold_trigger_state d j) ∧
      (∀ j, is_visible (process_block limit detect d k (some p)) j =
        is_visible d j) ∧
      (∀ j, get_fold_lvl (process_block limit detect d k (some p)) j =
        if j = k then clampLvl (get_fold_lvl d p) C
        else if get_fold_lvl d p < C ∧ p < j ∧ j < k then C
        else get_fold_lvl d j) ∧
      (∀ j, is_fold_trigger (process_block limit detect d k (some p)) j =
        if j = p then decide (get_fold_lvl d p < clampLvl (get_fold_lvl d p) C)
        else is_fold_trigger d j) := by
  have hred : process_block limit detect d k (some p) =
      applyEnterFix (set_fold_lvl (set_fold_trigger
        (applyWalk C (get_fold_lvl d p) d k) p
        (decide (get_fold_lvl d p < clampLvl (get_fold_lvl d p) C))) k
        (clampLvl (get_fold_lvl d p) C)) k := by
    unfold process_block
    simp only [hb, Bool.false_eq_true, if_false, Option.map_some']
    rw [← hC]
  by_cases hlt : get_fold_lvl d p < C
  · obtain ⟨hstop, hWlvl⟩ := walkBack_char_stop (d := d) (k := k) (p := p) C hplt hpnb hgap
    have hAW : applyWalk C (get_fold_lvl d p) d k =
        set_fold_trigger (walkBack C d k).1 p true := applyWalk_lt_eq hlt hstop
    rw [hred, hAW]
    have hskip : ∀ X : Doc, X = set_fold_lvl (set_fold_trigger
        (set_fold_trigger (walkBack C d k).1 p true) p
        (decide (get_fold_lvl d p < clampLvl (get_fold_lvl d p) C))) k
        (clampLvl (get_fold_lvl d p) C) →
        applyEnterFix X k = X := by
      intro X hX
      subst hX
      apply applyEnterFix_skip
      intro hcond
      obtain ⟨h1, h2, h3⟩ := hcond
      rw [get_text_set_fold_lvl, get_text_set_fold_trigger,
        get_text_set_fold_trigger, walkBack_text] at h2
      by_cases hpk : p = k - 1
      · rw [← hpk, hpnb] at h2
        exact Bool.noConfusion h2
      · rw [is_fold_trigger_set_fold_lvl, is_fold_trigger_set_fold_trigger,
          if_neg (fun hc => hpk hc.1), is_fold_trigger_set_fold_trigger,
          if_neg (fun hc => hpk hc.1), walkBack_trigger] at h3
        rw [htriggap (k - 1) (by omega) (by omega)] at h3
        exact Bool.noConfusion h3
    rw [hskip _ rfl]
    refine ⟨?_, ?_, ?_, ?_, ?_, ?_⟩
    · intro j
      rw [get_text_set_fold_lvl, get_text_set_fold_trigger,
        get_text_set_fold_trigger, walkBack_text]
    · rw [length_set_fold_lvl, length_set_fold_trigger, length_set_fold_trigger,
        walkBack_length]
    · intro j
      rw [get_fold_trigger_state_set_fold_lvl,
        get_fold_trigger_state_set_fold_trigger,
        get_fold_trigger_state_set_fold_trigger, walkBack_state]
    · intro j
      rw [is_visible_set_fold_lvl, is_visible_set_fold_trigger,
        is_visible_set_fold_trigger, walkBack_visible]
    · intro j
      rw [get_fold_lvl_set_fold_lvl, get_fold_lvl_set_fold_trigger,
        get_fold_lvl_set_fold_trigger, hWlvl j, length_set_fold_trigger,
        length_set_fold_trigger, walkBack_length]
      split_ifs <;> first | rfl | (exfalso; omega)
    · intro j
      rw [is_fold_trigger_set_fold_lvl, is_fold_trigger_set_fold_trigger,
        is_fold_trigger_set_fold_trigger, walkBack_trigger,
        length_set_fold_trigger, walkBack_length]
      split_ifs <;> first | rfl | (exfalso; omega)
  · have hAW : applyWalk C (get_fold_lvl d p) d k = d := applyWalk_not_lt hlt
    rw [hred, hAW]
    have hskip : applyEnterFix (set_fold_lvl (set_fold_trigger d p
        (decide (get_fold_lvl d p < clampLvl (get_fold_lvl d p) C))) k
        (clampLvl (get_fold_lvl d p) C)) k = set_fold_lvl (set_fold_trigger d p
        (decide (get_fold_lvl d p < clampLvl (get_fold_lvl d p) C))) k
        (clampLvl (get_fold_lvl d p) C) := by
      apply applyEnterFix_skip
      intro hcond
      obtain ⟨h1, h2, h3⟩ := hcond
      rw [get_text_set_fold_lvl, get_text_set_fold_trigger] at h2
      by_cases hpk : p = k - 1
      · rw [← hpk, hpnb] at h2
        exact Bool.noConfusion h2
      · rw [is_fold_trigger_set_fold_lvl, is_fold_trigger_set_fold_trigger,
          if_neg (fun hc => hpk hc.1)] at h3
        rw [htriggap (k - 1) (by omega) (by omega)] at h3
        exact Bool.noConfusion h3
    rw [hskip]
    refine ⟨?_, ?_, ?_, ?_, ?_, ?_⟩
    · intro j
      rw [get_text_set_fold_lvl, get_text_set_fold_trigger]
    · rw [length_set_fold_lvl, length_set_fold_trigger]
    · intro j
      rw [get_fold_trigger_state_set_fold_lvl,
        get_fold_trigger_state_set_fold_trigger]
    · intro j
      rw [is_visible_set_fold_lvl, is_visible_set_fold_trigger]
    · intro j
      rw [get_fold_lvl_set_fold_lvl, get_fold_lvl_set_fold_trigger,
        length_set_fold_trigger]
      split_ifs <;> first | rfl | (exfalso; omega)
    · intro j
      rw [is_fold_trigger_set_fold_lvl, is_fold_trigger_set_fold_trigger]
      split_ifs <;> first | rfl | (exfalso; omega)

theorem process_block_nonblank_none (limit : Nat)
    (detect : Option (List Char) → List Char → Nat) (d : Doc) (k C : Nat)
    (hC : C = (if limit < detect none (get_text d k) then limit
      else detect none (get_text d k)))
    (hb : isBlankText (get_text d k) = false)
    (hgap : ∀ j, j < k → isBlankText (get_text d j) = true)
    (hklen : k < d.length)
    (htriggap : ∀ j, j < k → is_fold_trigger d j = false) :
    (∀ j, get_text (process_block limit detect d k none) j = get_text d j) ∧
      (process_block limit detect d k none).length = d.length ∧
      (∀ j, get_fold_trigger_state (process_block limit detect d k none) j =
        get_fold_trigger_state d j) ∧
      (∀ j, is_visible (process_block limit detect d k none) j =
        is_visible d j) ∧
      (∀ j, get_fold_lvl (process_block limit detect d k none) j =
        if j = k then clampLvl 0 C
        else if 0 < C ∧ j < k then C
        else get_fold_lvl d j) ∧
      (∀ j, is_fold_trigger (process_block limit detect d k none) j =
        is_fold_trigger d j) := by
  have hred : process_block limit detect d k none =
      applyEnterFix (set_fold_lvl (applyWalk C 0 d k) k (clampLvl 0 C)) k := by
    unfold process_block
    simp only [hb, Bool.false_eq_true, if_false, Option.map_none']
    rw [← hC]
  by_cases hlt : 0 < C
  · obtain ⟨hstop, hWlvl⟩ := walkBack_char_none (d := d) (k := k) C hgap
    have hAW : applyWalk C 0 d k = (walkBack C d k).1 := applyWalk_none_eq hlt hstop
    rw [hred, hAW]
    have hskip : applyEnterFix (set_fold_lvl (walkBack C d k).1 k
        (clampLvl 0 C)) k = set_fold_lvl (walkBack C d k).1 k (clampLvl 0 C) := by
      apply applyEnterFix_skip
      intro hcond
      obtain ⟨h1, h2, h3⟩ := hcond
      rw [is_fold_trigger_set_fold_lvl, walkBack_trigger] at h3
      rw [htriggap (k - 1) (by omega)] at h3
      exact Bool.noConfusion h3
    rw [hskip]
    refine ⟨?_, ?_, ?_, ?_, ?_, ?_⟩
    · intro j
      rw [get_text_set_fold_lvl, walkBack_text]
    · rw [length_set_fold_lvl, walkBack_length]
    · intro j
      rw [get_fold_trigger_state_set_fold_lvl, walkBack_state]
    · intro j
      rw [is_visible_set_fold_lvl, walkBack_visible]
    · intro j
      rw [get_fold_lvl_set_fold_lvl, hWlvl j, walkBack_length]
      split_ifs <;> first | rfl | (exfalso; omega)
    · intro j
      rw [is_fold_trigger_set_fold_lvl, walkBack_trigger]
  · have hAW : applyWalk C 0 d k = d := applyWalk_not_lt hlt
    rw [hred, hAW]
    have hskip : applyEnterFix (set_fold_lvl d k (clampLvl 0 C)) k =
        set_fold_lvl d k (clampLvl 0 C) := by
      apply applyEnterFix_skip
      intro hcond
      obtain ⟨h1, h2, h3⟩ := hcond
      rw [is_fold_trigger_set_fold_lvl] at h3
      rw [htriggap (k - 1) (by omega)] at h3
      exact Bool.noConfusion h3
    rw [hskip]
    refine ⟨?_, ?_, ?_, ?_, ?_, ?_⟩
    · intro j
      rw [get_text_set_fold_lvl]
    · rw [length_set_fold_lvl]
    · intro j
      rw [get_fold_trigger_state_set_fold_lvl]
    · intro j
      rw [is_visible_set_fold_lvl]
    · intro j
      rw [get_fold_lvl_set_fold_lvl]
      split_ifs <;> first | rfl | (exfalso; omega)
    · intro j
      rw [is_fold_trigger_set_fold_lvl]

end ProcessBlockNonBlank

section PassInduction

theorem line_eq_of_fields {l l' : Line} (h1 : l.text = l'.text)
    (h2 : l.foldLvl = l'.foldLvl) (h3 : l.trigger = l'.trigger)
    (h4 : l.triggerState = l'.triggerState) (h5 : l.visible = l'.visible) :
    l = l' := by
  cases l
  cases l'
  simp_all

theorem doc_get?_ext {d d' : Doc} {j : Nat} (hlen : d'.length = d.length)
    (ht : get_text d' j = get_text d j)
    (hf : get_fold_lvl d' j = get_fold_lvl d j)
    (htr : is_fold_trigger d' j = is_fold_trigger d j)
    (hs : get_fold_trigger_state d' j = get_fold_trigger_state d j)
    (hv : is_visible d' j = is_visible d j) : d'.get? j = d.get? j := by
  by_cases hj : j < d.length
  · have hl : d.get? j = some (d.get ⟨j, hj⟩) := List.get?_eq_get hj
    have hl' : d'.get? j = some (d'.get ⟨j, by omega⟩) := List.get?_eq_get (by omega)
    simp only [get_text, get_fold_lvl, is_fold_trigger, get_fold_trigger_state,
      is_visible, hl, hl', Option.map_some', Option.getD_some] at ht hf htr hs hv
    rw [hl, hl']
    exact congrArg some (line_eq_of_fields ht hf htr hs hv)
  · have h1 : d.get? j = none := List.get?_eq_none.mpr (by omega)
    have h2 : d'.get? j = none := List.get?_eq_none.mpr (by omega)
    rw [h1, h2]

theorem blank_false_of_not {ts : List (List Char)} {j : Nat}
    (h : ¬ blankTs ts j) : isBlankText (ts.getD j []) = false := by
  cases hb : isBlankText (ts.getD j []) with
  | false => rfl
  | true => exact absurd hb h

theorem prevNonBlank_none_of {ts : List (List Char)} {i : Nat}
    (h : ∀ j, j < i → blankTs ts j) : prevNonBlank ts i = none := by
  induction i with
  | zero => rfl
  | succ i ih =>
    rw [prevNonBlank, if_pos (h i (by omega))]
    exact ih (fun j hj => h j (by omega))

theorem nextNonBlank_exists_le {ts : List (List Char)} {j k : Nat}
    (hjk : j < k) (hkl : k < ts.length) (hknb : ¬ blankTs ts k) :
    ∃ m, nextNonBlank ts j = some m ∧ m ≤ k := by
  classical
  have hP : ∃ n, j < n ∧ n < ts.length ∧ ¬ blankTs ts n := ⟨k, hjk, hkl, hknb⟩
  refine ⟨Nat.find hP, nextNonBlank_of_spec (Nat.find_spec hP).1
    (Nat.find_spec hP).2.1 (Nat.find_spec hP).2.2 ?_, ?_⟩
  · intro i h1 h2
    by_contra hbi
    have hfl := (Nat.find_spec hP).2.1
    exact Nat.find_min hP h2 ⟨h1, by omega, hbi⟩
  · by_contra hgt
    exact Nat.find_min hP (by omega) ⟨hjk, hkl, hknb⟩

theorem passInv_step_blank {limit : Nat}
    {detect : Option (List Char) → List Char → Nat} {ts : List (List Char)}
    {k : Nat} {d : Doc} (inv : PassInv limit detect ts k d)
    (hk : k < ts.length) (hb : blankTs ts k) :
    PassInv limit detect ts (k + 1)
      (process_block limit detect d k (prevNonBlank ts k)) := by
  have hbD : isBlankText (get_text d k) = true := by
    rw [inv.tx k]
    exact hb
  have hskip : ¬ (1 ≤ k ∧ isBlankText (get_text d (k - 1)) = true ∧
      is_fold_trigger d (k - 1) = true) := by
    intro hcond
    obtain ⟨h1, h2, h3⟩ := hcond
    rw [inv.tx (k - 1)] at h2
    exact ((inv.trig (k - 1)).mp h3).1 h2
  have hred := process_block_blank limit detect d k (prevNonBlank ts k) hbD hskip
  have hklen : k < d.length := by
    rw [inv.len]
    exact hk
  set PL := (match prevNonBlank ts k with
    | none => 0
    | some p => get_fold_lvl d p) with hPLdef
  have hPL : PL = plOf d ts k := by
    rw [hPLdef]
    unfold plOf
    cases prevNonBlank ts k <;> rfl
  have hplOf : ∀ i, plOf (set_fold_lvl d k PL) ts i = plOf d ts i := by
    intro i
    unfold plOf
    cases hq : prevNonBlank ts i with
    | none => rfl
    | some q =>
      have hqk : q ≠ k := fun hc => (prevNonBlank_spec hq).2.1 (hc ▸ hb)
      show get_fold_lvl (set_fold_lvl d k PL) q = get_fold_lvl d q
      rw [get_fold_lvl_set_fold_lvl, if_neg (fun hc => hqk hc.1.symm)]
  rw [hred]
  refine ⟨?_, ?_, ?_, ?_, ?_, ?_, ?_, ?_⟩
  · rw [length_set_fold_lvl]
    exact inv.len
  · intro j
    rw [get_text_set_fold_lvl]
    exact inv.tx j
  · intro j hj
    show (set_fold_lvl d k PL).get? j = (ts.get? j).map mkLine
    unfold set_fold_lvl
    rw [modifyAt_get?, if_neg (by omega)]
    exact inv.frame j (by omega)
  · intro j hjl
    rw [is_visible_set_fold_lvl]
    exact inv.vis j hjl
  · intro j
    rw [get_fold_trigger_state_set_fold_lvl]
    exact inv.state j
  · intro j hj hnbj
    have hjk : j ≠ k := fun hc => hnbj (hc ▸ hb)
    rw [get_fold_lvl_set_fold_lvl, if_neg (fun hc => hjk hc.1.symm), hplOf j]
    exact inv.nblvl j (by omega) hnbj
  · intro j hj hbj
    by_cases hjk : j = k
    · rw [hjk, get_fold_lvl_set_fold_lvl, if_pos ⟨rfl, hklen⟩]
      cases hm : nextNonBlank ts k with
      | none =>
        show PL = plOf (set_fold_lvl d k PL) ts k
        rw [hplOf k]
        exact hPL
      | some m =>
        have hjm := (nextNonBlank_spec hm).1
        show PL = if m < k + 1 then
            raiseLvl (plOf (set_fold_lvl d k PL) ts k) (detClip limit detect ts m)
          else plOf (set_fold_lvl d k PL) ts k
        rw [if_neg (by omega), hplOf k]
        exact hPL
    · have hjlt : j < k := by omega
      rw [get_fold_lvl_set_fold_lvl, if_neg (fun hc => hjk hc.1.symm)]
      cases hm : nextNonBlank ts j with
      | none =>
        have hold2 : get_fold_lvl d j = plOf d ts j := by
          have h0 := inv.blanks j hjlt hbj
          rw [hm] at h0
          exact h0
        show get_fold_lvl d j = plOf (set_fold_lvl d k PL) ts j
        rw [hplOf j]
        exact hold2
      | some m =>
        have hmk : m ≠ k := fun hc => (nextNonBlank_spec hm).2.2.1 (hc ▸ hb)
        have hold2 : get_fold_lvl d j = if m < k then raiseLvl (plOf d ts j)
            (detClip limit detect ts m) else plOf d ts j := by
          have h0 := inv.blanks j hjlt hbj
          rw [hm] at h0
          exact h0
        show get_fold_lvl d j = if m < k + 1 then
            raiseLvl (plOf (set_fold_lvl d k PL) ts j) (detClip limit detect ts m)
          else plOf (set_fold_lvl d k PL) ts j
        rw [hplOf j]
        by_cases hmlt : m < k
        · rw [if_pos (by omega), hold2, if_pos hmlt]
        · rw [if_neg (by omega), hold2, if_neg hmlt]
  · intro j
    rw [is_fold_trigger_set_fold_lvl]
    constructor
    · intro h
      obtain ⟨hnbj, m, hm, hmk, hlv⟩ := (inv.trig j).mp h
      have hjk : j ≠ k := fun hc => hnbj (hc ▸ hb)
      have hmk2 : m ≠ k := fun hc => (nextNonBlank_spec hm).2.2.1 (hc ▸ hb)
      refine ⟨hnbj, m, hm, by omega, ?_⟩
      rw [get_fold_lvl_set_fold_lvl, if_neg (fun hc => hjk hc.1.symm),
        get_fold_lvl_set_fold_lvl, if_neg (fun hc => hmk2 hc.1.symm)]
      exact hlv
    · rintro ⟨hnbj, m, hm, hmk1, hlv⟩
      have hjk : j ≠ k := fun hc => hnbj (hc ▸ hb)
      have hmk2 : m ≠ k := fun hc => (nextNonBlank_spec hm).2.2.1 (hc ▸ hb)
      rw [get_fold_lvl_set_fold_lvl, if_neg (fun hc => hjk hc.1.symm),
        get_fold_lvl_set_fold_lvl, if_neg (fun hc => hmk2 hc.1.symm)] at hlv
      exact (inv.trig j).mpr ⟨hnbj, m, hm, by omega, hlv⟩

theorem passInv_step_some {limit : Nat}
    {detect : Option (List Char) → List Char → Nat} {ts : List (List Char)}
    {k p : Nat} {d : Doc} (inv : PassInv limit detect ts k d)
    (hk : k < ts.length) (hb : ¬ blankTs ts k)
    (hp : prevNonBlank ts k = some p) :
    PassInv limit detect ts (k + 1)
      (process_block limit detect d k (some p)) := by
  obtain ⟨hplt, hpnb, hgap⟩ := prevNonBlank_spec hp
  have hbD : isBlankText (get_text d k) = false := by
    rw [inv.tx k]
    exact blank_false_of_not hb
  have hpnbD : isBlankText (get_text d p) = false := by
    rw [inv.tx p]
    exact blank_false_of_not hpnb
  have hC : detClip limit detect ts k =
      (if limit < detect (some (get_text d p)) (get_text d k) then limit
        else detect (some (get_text d p)) (get_text d k)) := by
    simp only [detClip, hp, Option.map_some']
    rw [← inv.tx p, ← inv.tx k]
  have hgapD : ∀ j, p < j → j < k → isBlankText (get_text d j) = true := by
    intro j h1 h2
    rw [inv.tx j]
    exact hgap j h1 h2
  have htrigD : ∀ j, p < j → j < k → is_fold_trigger d j = false := by
    intro j h1 h2
    cases htr : is_fold_trigger d j with
    | false => rfl
    | true => exact absurd (hgap j h1 h2) ((inv.trig j).mp htr).1
  have hklen : k < d.length := by
    rw [inv.len]
    exact hk
  obtain ⟨Htx, Hlen, Hstate, Hvis, Hlvl, Htrig⟩ :=
    process_block_nonblank_some limit detect d k p (detClip limit detect ts k)
      hC hbD hplt hpnbD hgapD hklen htrigD
  have hlvl_le_p : ∀ q, q ≤ p →
      get_fold_lvl (process_block limit detect d k (some p)) q =
        get_fold_lvl d q := by
    intro q hq
    rw [Hlvl q, if_neg (by omega), if_neg (fun hc => absurd hc.2.1 (by omega))]
  have hplOf_le : ∀ j, j ≤ k →
      plOf (process_block limit detect d k (some p)) ts j = plOf d ts j := by
    intro j hj
    unfold plOf
    cases hq : prevNonBlank ts j with
    | none => rfl
    | some q =>
      obtain ⟨hq1, hq2, hq3⟩ := prevNonBlank_spec hq
      have hqle : q ≤ p := by
        by_cases hqp : q ≤ p
        · exact hqp
        · exact absurd (hgap q (by omega) (by omega)) hq2
      show get_fold_lvl (process_block limit detect d k (some p)) q =
        get_fold_lvl d q
      exact hlvl_le_p q hqle
  have hplk : plOf d ts k = get_fold_lvl d p := by
    unfold plOf
    rw [hp]
  refine ⟨?_, ?_, ?_, ?_, ?_, ?_, ?_, ?_⟩
  · exact Hlen.trans inv.len
  · intro j
    exact (Htx j).trans (inv.tx j)
  · intro j hj
    have hlv : get_fold_lvl (process_block limit detect d k (some p)) j =
        get_fold_lvl d j := by
      rw [Hlvl j, if_neg (by omega), if_neg (fun hc => absurd hc.2.2 (by omega))]
    have htr : is_fold_trigger (process_block limit detect d k (some p)) j =
        is_fold_trigger d j := by
      rw [Htrig j, if_neg (by omega)]
    rw [doc_get?_ext Hlen (Htx j) hlv htr (Hstate j) (Hvis j)]
    exact inv.frame j (by omega)
  · intro j hjl
    rw [Hvis j]
    exact inv.vis j hjl
  · intro j
    rw [Hstate j]
    exact inv.state j
  · intro j hj hnbj
    by_cases hjk : j = k
    · rw [hjk, Hlvl k, if_pos rfl, hplOf_le k le_rfl, hplk]
    · have hjlep : j ≤ p := by
        by_cases h1 : j ≤ p
        · exact h1
        · exact absurd (hgap j (by omega) (by omega)) hnbj
      rw [hlvl_le_p j hjlep, hplOf_le j (by omega)]
      exact inv.nblvl j (by omega) hnbj
  · intro j hj hbj
    have hjk : j ≠ k := fun hc => hb (hc ▸ hbj)
    have hjlt : j < k := by omega
    cases hm : nextNonBlank ts j with
    | none =>
      obtain ⟨m, hm2, hm3⟩ := nextNonBlank_exists_le hjlt hk hb
      exact Option.noConfusion (hm2.symm.trans hm)
    | some m =>
      obtain ⟨hm1, hm2, hm3, hm4⟩ := nextNonBlank_spec hm
      have hmlek : m ≤ k := by
        by_contra hgt
        exact hb (hm4 k (by omega) (by omega))
      have hold2 : get_fold_lvl d j = if m < k then raiseLvl (plOf d ts j)
          (detClip limit detect ts m) else plOf d ts j := by
        have h0 := inv.blanks j hjlt hbj
        rw [hm] at h0
        exact h0
      show get_fold_lvl (process_block limit detect d k (some p)) j =
        if m < k + 1 then
          raiseLvl (plOf (process_block limit detect d k (some p)) ts j)
            (detClip limit detect ts m)
        else plOf (process_block limit detect d k (some p)) ts j
      rw [hplOf_le j (by omega)]
      by_cases hmk : m = k
      · subst hmk
        have hpj : p < j := by
          by_contra hle
          by_cases hjp : j = p
          · exact hpnb (hjp ▸ hbj)
          · exact hpnb (hm4 p (by omega) (by omega))
        have hpj2 : plOf d ts j = get_fold_lvl d p := by
          unfold plOf
          rw [prevNonBlank_of_spec hpj hpnb (fun t h1 h2 => hgap t h1 (by omega))]
        rw [if_pos (by omega), hpj2, Hlvl j, if_neg hjk]
        unfold raiseLvl
        by_cases hplC : get_fold_lvl d p < detClip limit detect ts m
        · rw [if_pos ⟨hplC, hpj, hjlt⟩, if_pos hplC]
        · rw [if_neg (fun hc => hplC hc.1), if_neg hplC]
          have h0 := inv.blanks j hjlt hbj
          rw [hm] at h0
          have h1 : get_fold_lvl d j = if m < m then raiseLvl (plOf d ts j)
              (detClip limit detect ts m) else plOf d ts j := h0
          rw [if_neg (Nat.lt_irrefl m)] at h1
          rw [h1, hpj2]
      · have hmltk : m < k := by omega
        have hmlep : m ≤ p := by
          by_contra hgt
          exact hm3 (hgap m (by omega) (by omega))
        rw [if_pos (by omega), hlvl_le_p j (by omega), hold2, if_pos hmltk]
  · intro j
    by_cases hjp : j = p
    · rw [hjp, Htrig p, if_pos rfl]
      have hnext : nextNonBlank ts p = some k :=
        nextNonBlank_of_prevNonBlank hk hb hp
      have hlvp : get_fold_lvl (process_block limit detect d k (some p)) p =
          get_fold_lvl d p := hlvl_le_p p le_rfl
      have hlvk : get_fold_lvl (process_block limit detect d k (some p)) k =
          clampLvl (get_fold_lvl d p) (detClip limit detect ts k) := by
        rw [Hlvl k, if_pos rfl]
      constructor
      · intro hdec
        have hlt := of_decide_eq_true hdec
        refine ⟨hpnb, k, hnext, by omega, ?_⟩
        rw [hlvp, hlvk]
        exact hlt
      · rintro ⟨-, m, hmeq, -, hlv⟩
        rw [hnext] at hmeq
        injection hmeq with hmk
        subst hmk
        rw [hlvp, hlvk] at hlv
        exact decide_eq_true hlv
    · rw [Htrig j, if_neg (fun hc => hjp hc)]
      by_cases hbj : blankTs ts j
      · constructor
        · intro h
          exact absurd hbj ((inv.trig j).mp h).1
        · rintro ⟨hnbj, -⟩
          exact absurd hbj hnbj
      · by_cases hjge : k ≤ j
        · constructor
          · intro h
            obtain ⟨-, m, hmeq, hmlt, -⟩ := (inv.trig j).mp h
            have := (nextNonBlank_spec hmeq).1
            omega
          · rintro ⟨-, m, hmeq, hmlt, -⟩
            have := (nextNonBlank_spec hmeq).1
            omega
        · have hjltp : j < p := by
            by_cases h1 : j < p
            · exact h1
            · exact absurd (hgap j (by omega) (by omega)) hbj
          constructor
          · intro h
            obtain ⟨hnb2, m, hmeq, hmlt, hlv⟩ := (inv.trig j).mp h
            obtain ⟨hm1, hm2, hm3, hm4⟩ := nextNonBlank_spec hmeq
            have hmlep : m ≤ p := by
              by_contra hgt
              exact hpnb (hm4 p (by omega) (by omega))
            refine ⟨hnb2, m, hmeq, by omega, ?_⟩
            rw [hlvl_le_p j (by omega), hlvl_le_p m hmlep]
            exact hlv
          · rintro ⟨hnb2, m, hmeq, hmlt, hlv⟩
            obtain ⟨hm1, hm2, hm3, hm4⟩ := nextNonBlank_spec hmeq
            have hmlep : m ≤ p := by
              by_contra hgt
              exact hpnb (hm4 p (by omega) (by omega))
            rw [hlvl_le_p j (by omega), hlvl_le_p m hmlep] at hlv
            exact (inv.trig j).mpr ⟨hnb2, m, hmeq, by omega, hlv⟩

theorem passInv_step_none {limit : Nat}
    {detect : Option (List Char) → List Char → Nat} {ts : List (List Char)}
    {k : Nat} {d : Doc} (inv : PassInv limit detect ts k d)
    (hk : k < ts.length) (hb : ¬ blankTs ts k)
    (hp : prevNonBlank ts k = none) :
    PassInv limit detect ts (k + 1)
      (process_block limit detect d k none) := by
  have hallb : ∀ j, j < k → blankTs ts j := prevNonBlank_none_spec hp
  have hbD : isBlankText (get_text d k) = false := by
    rw [inv.tx k]
    exact blank_false_of_not hb
  have hC : detClip limit detect ts k =
      (if limit < detect none (get_text d k) then limit
        else detect none (get_text d k)) := by
    simp only [detClip, hp, Option.map_none']
    rw [← inv.tx k]
  have hgapD : ∀ j, j < k → isBlankText (get_text d j) = true := by
    intro j hj
    rw [inv.tx j]
    exact hallb j hj
  have htrigD : ∀ j, j < k → is_fold_trigger d j = false := by
    intro j hj
    cases htr : is_fold_trigger d j with
    | false => rfl
    | true => exact absurd (hallb j hj) ((inv.trig j).mp htr).1
  have hklen : k < d.length := by
    rw [inv.len]
    exact hk
  obtain ⟨Htx, Hlen, Hstate, Hvis, Hlvl, Htrig⟩ :=
    process_block_nonblank_none limit detect d k (detClip limit detect ts k)
      hC hbD hgapD hklen htrigD
  have hpl0 : ∀ (X : Doc) j, j ≤ k → plOf X ts j = 0 := by
    intro X j hj
    unfold plOf
    rw [prevNonBlank_none_of (fun t ht => hallb t (by omega))]
  refine ⟨?_, ?_, ?_, ?_, ?_, ?_, ?_, ?_⟩
  · exact Hlen.trans inv.len
  · intro j
    exact (Htx j).trans (inv.tx j)
  · intro j hj
    have hlv : get_fold_lvl (process_block limit detect d k none) j =
        get_fold_lvl d j := by
      rw [Hlvl j, if_neg (by omega), if_neg (fun hc => absurd hc.2 (by omega))]
    rw [doc_get?_ext Hlen (Htx j) hlv (Htrig j) (Hstate j) (Hvis j)]
    exact inv.frame j (by omega)
  · intro j hjl
    rw [Hvis j]
    exact inv.vis j hjl
  · intro j
    rw [Hstate j]
    exact inv.state j
  · intro j hj hnbj
    have hjk : j = k := by
      by_contra hne
      exact hnbj (hallb j (by omega))
    rw [hjk, Hlvl k, if_pos rfl, hpl0 _ k le_rfl]
  · intro j hj hbj
    have hjk : j ≠ k := fun hc => hb (hc ▸ hbj)
    have hjlt : j < k := by omega
    cases hm : nextNonBlank ts j with
    | none =>
      obtain ⟨m, hm2, hm3⟩ := nextNonBlank_exists_le hjlt hk hb
      exact Option.noConfusion (hm2.symm.trans hm)
    | some m =>
      obtain ⟨hm1, hm2, hm3, hm4⟩ := nextNonBlank_spec hm
      have hmk : m = k := by
        by_cases h1 : m < k
        · exact absurd (hallb m h1) hm3
        · by_cases h2 : m = k
          · exact h2
          · exact absurd (hm4 k (by omega) (by omega)) hb
      show get_fold_lvl (process_block limit detect d k none) j =
        if m < k + 1 then
          raiseLvl (plOf (process_block limit detect d k none) ts j)
            (detClip limit detect ts m)
        else plOf (process_block limit detect d k none) ts j
      rw [hmk, if_pos (by omega), hpl0 _ j (by omega), Hlvl j, if_neg hjk]
      unfold raiseLvl
      by_cases hC0 : 0 < detClip limit detect ts k
      · rw [if_pos ⟨hC0, hjlt⟩, if_pos hC0]
      · rw [if_neg (fun hc => hC0 hc.1), if_neg hC0]
        have h0 := inv.blanks j hjlt hbj
        rw [hm] at h0
        have h1 : get_fold_lvl d j = if m < k then raiseLvl (plOf d ts j)
            (detClip limit detect ts m) else plOf d ts j := h0
        rw [hmk, if_neg (Nat.lt_irrefl k), hpl0 d j (by omega)] at h1
        exact h1
  · intro j
    rw [Htrig j]
    by_cases hbj : blankTs ts j
    · constructor
      · intro h
        exact absurd hbj ((inv.trig j).mp h).1
      · rintro ⟨hnbj, -⟩
        exact absurd hbj hnbj
    · have hjge : k ≤ j := by
        by_contra hlt
        exact hbj (hallb j (by omega))
      constructor
      · intro h
        obtain ⟨-, m, hmeq, hmlt, -⟩ := (inv.trig j).mp h
        have := (nextNonBlank_spec hmeq).1
        omega
      · rintro ⟨-, m, hmeq, hmlt, -⟩
        have := (nextNonBlank_spec hmeq).1
        omega

theorem passInv_step {limit : Nat}
    {detect : Option (List Char) → List Char → Nat} {ts : List (List Char)}
    {k : Nat} {d : Doc} (inv : PassInv limit detect ts k d)
    (hk : k < ts.length) :
    PassInv limit detect ts (k + 1)
      (process_block limit detect d k (prevNonBlank ts k)) := by
  by_cases hb : blankTs ts k
  · exact passInv_step_blank inv hk hb
  · cases hp : prevNonBlank ts k with
    | some p => exact passInv_step_some inv hk hb hp
    | none => exact passInv_step_none inv hk hb hp

theorem passInv_init (limit : Nat)
    (detect : Option (List Char) → List Char → Nat) (ts : List (List Char)) :
    PassInv limit detect ts 0 (ts.map mkLine) := by
  refine ⟨?_, ?_, ?_, ?_, ?_, ?_, ?_, ?_⟩
  · simp
  · intro j
    simp only [get_text, List.get?_map]
    rw [List.getD_eq_getElem?_getD, ← List.get?_eq_getElem?]
    cases ts.get? j <;> rfl
  · intro j hj
    rw [List.get?_map]
  · intro j hj
    simp only [is_visible, List.get?_map]
    cases hjt : ts.get? j with
    | none =>
      rw [List.get?_eq_none] at hjt
      omega
    | some t => rfl
  · intro j
    simp only [get_fold_trigger_state, List.get?_map]
    cases ts.get? j <;> rfl
  · intro j hj hnbj
    omega
  · intro j hj hbj
    omega
  · intro j
    constructor
    · intro h
      simp only [is_fold_trigger, List.get?_map] at h
      cases hjt : ts.get? j with
      | none =>
        rw [hjt] at h
        exact Bool.noConfusion h
      | some t =>
        rw [hjt] at h
        exact Bool.noConfusion h
    · rintro ⟨-, m, -, hmlt, -⟩
      omega

theorem passFrom_inv (limit : Nat)
    (detect : Option (List Char) → List Char → Nat) (ts : List (List Char))
    (fuel : Nat) : ∀ k d, k + fuel ≤ ts.length → PassInv limit detect ts k d →
    PassInv limit detect ts (k + fuel) (passFrom limit detect ts d k fuel) := by
  induction fuel with
  | zero =>
    intro k d hle inv
    exact inv
  | succ fuel ih =>
    intro k d hle inv
    rw [passFrom]
    have step := passInv_step inv (by omega)
    have h2 := ih (k + 1) _ (by omega) step
    have heq : k + 1 + fuel = k + (fuel + 1) := by omega
    rw [heq] at h2
    exact h2

theorem processAll_inv (limit : Nat)
    (detect : Option (List Char) → List Char → Nat) (ts : List (List Char)) :
    PassInv limit detect ts ts.length (processAll limit detect ts) := by
  have h := passFrom_inv limit detect ts ts.length 0 (ts.map mkLine) (by omega)
    (passInv_init limit detect ts)
  rw [Nat.zero_add] at h
  exact h

end PassInduction

/-- C1, counterexample: the claimed two-sided contiguity bound fails.  In the
document `["def a():", "    def b():", "        x = 1", "y = 2"]` the adjacent
non-blank lines 2 and 3 end a full pass with levels 2 and 0: the level drops
by 2, because `process_block` clamps only increases (folding.py lines 88 to
96 adjust `fold_level` only when `fold_level > prev_fold_level`). -/
theorem c1_counterexample :
    ¬ (∀ (limit : Nat) (detect : Option (List Char) → List Char → Nat)
        (ts : List (List Char)) (j : Nat), j + 1 < ts.length →
        ¬ blankTs ts j → ¬ blankTs ts (j + 1) →
        get_fold_lvl (processAll limit detect ts) j ≤
          get_fold_lvl (processAll limit detect ts) (j + 1) + 1) := by
  intro h
  exact absurd (h defaultLimit indentDetect exC1Ts 2 (by decide) (by decide)
    (by decide)) (by decide)

/-- C1, amended: only the increasing direction of contiguity holds.  After a
full pass, a non-blank line's level is at most one above the level of its
nearest preceding non-blank line (the raw detected level is clamped down to
`prev + 1`, folding.py lines 88 to 96); decreases are passed through
unbounded. -/
theorem c1_contiguity_amended (limit : Nat)
    (detect : Option (List Char) → List Char → Nat) (ts : List (List Char))
    (j p : Nat) (hj : j < ts.length) (hnb : ¬ blankTs ts j)
    (hp : prevNonBlank ts j = some p) :
    get_fold_lvl (processAll limit detect ts) j ≤
      get_fold_lvl (processAll limit detect ts) p + 1 := by
  have inv := processAll_inv limit detect ts
  rw [inv.nblvl j hj hnb]
  have hpl : plOf (processAll limit detect ts) ts j =
      get_fold_lvl (processAll limit detect ts) p := by
    unfold plOf
    rw [hp]
  rw [hpl]
  exact clampLvl_le_succ _ _

/-- Witness for the amended C1 bound on scenario 1 at line 1 (preceding
non-blank line 0). -/
theorem c1_contiguity_witness :
    1 < scen1Ts.length ∧ ¬ blankTs scen1Ts 1 ∧
      prevNonBlank scen1Ts 1 = some 0 ∧
      get_fold_lvl (processAll defaultLimit indentDetect scen1Ts) 1 ≤
        get_fold_lvl (processAll defaultLimit indentDetect scen1Ts) 0 + 1 :=
  ⟨by decide, by decide, by decide,
    c1_contiguity_amended defaultLimit indentDetect scen1Ts 1 0 (by decide)
      (by decide) (by decide)⟩

/-- C2: after a full pass over all lines, a line is flagged as a fold
trigger exactly when it has a following non-blank line whose final fold
level is strictly greater than the line's own final level.  In particular
the flag always sits on the nearest non-blank line preceding the increase
(for any line `j`, the witness line of `nextNonBlank` is the one the
backward walk of folding.py lines 79 to 86 stopped on), blank lines are
never triggers after reconciliation, and the blank line above an increase
that transiently held the flag has been cleared. -/
theorem c2_trigger_iff (limit : Nat)
    (detect : Option (List Char) → List Char → Nat) (ts : List (List Char))
    (j : Nat) :
    is_fold_trigger (processAll limit detect ts) j = true ↔
      ∃ m, nextNonBlank ts j = some m ∧
        get_fold_lvl (processAll limit detect ts) j <
          get_fold_lvl (processAll limit detect ts) m := by
  have inv := processAll_inv limit detect ts
  rw [inv.trig j]
  constructor
  · rintro ⟨-, m, hm, -, hlv⟩
    exact ⟨m, hm, hlv⟩
  · rintro ⟨m, hm, hlv⟩
    obtain ⟨hm1, hm2, hm3, hm4⟩ := nextNonBlank_spec hm
    by_cases hbj : blankTs ts j
    · exfalso
      have hjlen : j < ts.length := by omega
      have hblvl := inv.blanks j hjlen hbj
      rw [hm] at hblvl
      have hblvl2 : get_fold_lvl (processAll limit detect ts) j =
          if m < ts.length then
            raiseLvl (plOf (processAll limit detect ts) ts j)
              (detClip limit detect ts m)
          else plOf (processAll limit detect ts) ts j := hblvl
      rw [if_pos hm2] at hblvl2
      have hmlvl := inv.nblvl m hm2 hm3
      have hpeq : prevNonBlank ts m = prevNonBlank ts j :=
        prevNonBlank_congr_blank hbj (by omega) (fun t h1 h2 => by
          by_cases ht : t = j
          · exact ht ▸ hbj
          · exact hm4 t (by omega) h2)
      have hplmj : plOf (processAll limit detect ts) ts m =
          plOf (processAll limit detect ts) ts j := by
        unfold plOf
        rw [hpeq]
      rw [hblvl2, hmlvl, hplmj] at hlv
      have := clampLvl_le_raiseLvl (plOf (processAll limit detect ts) ts j)
        (detClip limit detect ts m)
      omega
    · exact ⟨hbj, m, hm, hm2, hlv⟩

/-- C3, counterexample: a blank line does not always end a full pass with
the level of its nearest preceding non-blank line.  In
`["def f():", "", "    x = 1"]` the blank line 1 ends with level 1 (the
backward walk of folding.py lines 79 to 86 raised it to the raw level of
line 2) while its nearest preceding non-blank line 0 has level 0. -/
theorem c3_counterexample :
    ¬ (∀ (limit : Nat) (detect : Option (List Char) → List Char → Nat)
        (ts : List (List Char)) (j : Nat), j < ts.length → blankTs ts j →
        get_fold_lvl (processAll limit detect ts) j =
          plOf (processAll limit detect ts) ts j) := by
  intro h
  exact absurd (h defaultLimit indentDetect exC3Ts 1 (by decide) (by decide))
    (by decide)

/-- C3, amended: after a full pass a blank line carries the inherited level
of its nearest preceding non-blank line (0 when there is none), raised to
the clipped raw detector level of the following non-blank line when that is
larger (the backward walk, folding.py lines 79 to 86); with no following
non-blank line the inherited level stands. -/
theorem c3_blank_amended (limit : Nat)
    (detect : Option (List Char) → List Char → Nat) (ts : List (List Char))
    (j : Nat) (hj : j < ts.length) (hb : blankTs ts j) :
    get_fold_lvl (processAll limit detect ts) j =
      (match nextNonBlank ts j with
       | some m => raiseLvl (plOf (processAll limit detect ts) ts j)
           (detClip limit detect ts m)
       | none => plOf (processAll limit detect ts) ts j) := by
  have inv := processAll_inv limit detect ts
  have h0 := inv.blanks j hj hb
  cases hm : nextNonBlank ts j with
  | none =>
    rw [hm] at h0
    exact h0
  | some m =>
    rw [hm] at h0
    have h1 : get_fold_lvl (processAll limit detect ts) j =
        if m < ts.length then
          raiseLvl (plOf (processAll limit detect ts) ts j)
            (detClip limit detect ts m)
        else plOf (processAll limit detect ts) ts j := h0
    show get_fold_lvl (processAll limit detect ts) j =
      raiseLvl (plOf (processAll limit detect ts) ts j)
        (detClip limit detect ts m)
    rw [h1, if_pos (nextNonBlank_spec hm).2.1]

/-- Witness for the amended C3 formula on the blank line 1 of
`["def f():", "", "    x = 1"]`. -/
theorem c3_blank_witness :
    1 < exC3Ts.length ∧ blankTs exC3Ts 1 ∧
      get_fold_lvl (processAll defaultLimit indentDetect exC3Ts) 1 =
        (match nextNonBlank exC3Ts 1 with
         | some m => raiseLvl (plOf (processAll defaultLimit indentDetect
             exC3Ts) exC3Ts 1) (detClip defaultLimit indentDetect exC3Ts m)
         | none => plOf (processAll defaultLimit indentDetect exC3Ts)
             exC3Ts 1) :=
  ⟨by decide, by decide,
    c3_blank_amended defaultLimit indentDetect exC3Ts 1 (by decide)
      (by decide)⟩
